import Mathlib

/-!
Shallow embedding of the ice-tray financial engine
(src/lib/financial-model.ts and src/lib/user-actions.ts).

Numbers (JS `number`) are modelled as rationals; account maps
(immutable.js `Map`) are modelled as association lists with JS-Map
insertion-order semantics: `mset` replaces the first binding in place or
appends a fresh binding at the end, `mget` returns the first binding or
the supplied default (matching `map.get(key, default)`).  Timestamps are
modelled by a three-way type `Time` because the engine uses the JS
sentinels `-Infinity` (initial snapshot) and `Infinity` (final scan
target, "no more nonlinearities").  The two unbounded loops of the
source, the dirty worklist of `updateTransients` and the event loop of
`computeIntermediateStates`, are given explicit fuel; running out of
fuel is reported as an error, mirroring the fact that the source would
simply not terminate.
-/

namespace IceTray

/-- Lookup in an association list with a default, like `map.get(k, dflt)`
of immutable.js: the first binding wins. -/
def mget {α : Type} : List (String × α) → String → α → α
  | [], _, dflt => dflt
  | (k, v) :: rest, key, dflt => if k = key then v else mget rest key dflt

/-- Update in an association list, like `map.set(k, v)` of a JS map:
replace the first binding in place, or append a fresh binding. -/
def mset {α : Type} : List (String × α) → String → α → List (String × α)
  | [], key, v => [(key, v)]
  | (k, w) :: rest, key, v =>
    if k = key then (k, v) :: rest else (k, w) :: mset rest key v

/-- Sum of the values of a rate map, `map.reduce((a, x) => a + x, 0)`. -/
def sumVals (m : List (String × ℚ)) : ℚ :=
  m.foldl (fun a x => a + x.2) 0

/-- Timestamps: JS numbers together with the sentinels `-Infinity`
(timestamp of the initial snapshot) and `Infinity` (target of the final
scan, and "no more nonlinearities"). -/
inductive Time where
  | negInf : Time
  | fin (t : ℚ) : Time
  | posInf : Time
  deriving DecidableEq, Repr

/-- JS `<=` on extended numbers. -/
def Time.ble : Time → Time → Bool
  | .negInf, _ => true
  | _, .posInf => true
  | .fin a, .fin b => a ≤ b
  | _, _ => false

instance : LE Time := ⟨fun a b => Time.ble a b = true⟩

instance : LT Time := ⟨fun a b => Time.ble b a = false⟩

instance (a b : Time) : Decidable (a ≤ b) := by
  unfold LE.le instLETime; exact inferInstance

instance (a b : Time) : Decidable (a < b) := by
  unfold LT.lt instLTTime; exact inferInstance

/-- Adding a finite JS number to an extended timestamp
(`-Infinity + q = -Infinity`, `Infinity + q = Infinity`). -/
def Time.addQ : Time → ℚ → Time
  | .negInf, _ => .negInf
  | .fin t, q => .fin (t + q)
  | .posInf, _ => .posInf

/-- The finite difference `q - t` used by `projectLinear` as `deltaTime`.
In the source this difference is only ever taken with `t` finite: the
single call on the `-Infinity` initial snapshot acts on an empty account
map, so the delta multiplies nothing.  The infinite cases are given the
harmless value 0. -/
def Time.deltaQ (q : ℚ) : Time → ℚ
  | .fin t => q - t
  | _ => 0

/-- AccountState of financial-model.ts: static fields (accountId,
capacity, overflowTargetId, drainSizes) plus transient fields updated by
`updateTransients`. -/
structure AccountState where
  accountId : String
  capacity : ℚ
  overflowTargetId : Option String
  drainSizes : List (String × ℚ)
  fillLevel : ℚ
  fillRate : ℚ
  overflowRate : ℚ
  drainEffectiveRates : List (String × ℚ)
  drainInflows : List (String × ℚ)
  overflowInflows : List (String × ℚ)
  deriving DecidableEq, Repr

/-- The all-default account record (`AccountState()`). -/
def emptyAccount : AccountState :=
  { accountId := ""
    capacity := 0
    overflowTargetId := none
    drainSizes := []
    fillLevel := 0
    fillRate := 0
    overflowRate := 0
    drainEffectiveRates := []
    drainInflows := []
    overflowInflows := [] }

/-- The whole-graph account map. -/
abbrev Accounts : Type := List (String × AccountState)

/-- HistorySnapshot of financial-model.ts. -/
structure HistorySnapshot where
  timestamp : Time
  accounts : List (String × AccountState)
  deriving DecidableEq, Repr

/-- user-actions.ts: the closed action union.  For
`CreateOrUpdateAccount` the outer `Option` on the two optional fields
distinguishes an absent field from one explicitly set (the source tests
`action.capacity !== undefined` and `("overflowTargetId" in action)`);
the inner `Option String` is the JS value, possibly `undefined`. -/
inductive UserAction where
  | createOrUpdateAccount (accountId : String) (capacity : Option ℚ)
      (overflowTargetId : Option (Option String)) : UserAction
  | injectMoney (accountId : String) (amount : ℚ) : UserAction
  | updateDrain (sourceAccountId targetAccountId : String) (maxRate : ℚ) : UserAction
  | deleteDrain (sourceAccountId targetAccountId : String) : UserAction
  | deleteAccount (accountId : String) : UserAction
  deriving DecidableEq, Repr

/-- UserActionGroup of user-actions.ts. -/
structure UserActionGroup where
  timestamp : ℚ
  actions : List UserAction
  deriving DecidableEq, Repr

/-- Failure modes of the embedded engine: `notImplemented` is the thrown
`new Error("not implemented")`; `outOfFuel` marks a run of one of the
two unbounded source loops exceeding the supplied fuel. -/
inductive Err where
  | notImplemented : Err
  | outOfFuel : Err
  deriving DecidableEq, Repr

/-- `injectMoney` of financial-model.ts; returns the updated graph and
the dirty list with the pushed account. -/
def injectMoney (accounts : Accounts) (accountId : String) (amount : ℚ)
    (dirty : List String) : Accounts × List String :=
  let account0 := mget accounts accountId emptyAccount
  let account1 :=
    if account0.accountId ≠ accountId then { account0 with accountId := accountId }
    else account0
  let account2 := { account1 with fillLevel := account1.fillLevel + amount }
  (mset accounts accountId account2, dirty ++ [accountId])

/-- `updateDrain` of financial-model.ts. -/
def updateDrain (accounts : Accounts) (sourceAccountId targetAccountId : String)
    (maxRate : ℚ) (dirty : List String) : Accounts × List String :=
  let source0 := mget accounts sourceAccountId emptyAccount
  let source1 :=
    if source0.accountId ≠ sourceAccountId then { source0 with accountId := sourceAccountId }
    else source0
  let source2 := { source1 with drainSizes := mset source1.drainSizes targetAccountId maxRate }
  (mset accounts sourceAccountId source2, dirty ++ [sourceAccountId])

/-- `deleteDrain` of financial-model.ts: zero the drain size in place
(`accounts.setIn([source, "drainSizes", target], 0)`); a missing source
entry is materialized from the default record, per the lazy-creation
policy of the engine. -/
def deleteDrain (accounts : Accounts) (sourceAccountId targetAccountId : String)
    (dirty : List String) : Accounts × List String :=
  let source0 := mget accounts sourceAccountId emptyAccount
  let source1 := { source0 with drainSizes := mset source0.drainSizes targetAccountId 0 }
  (mset accounts sourceAccountId source1, dirty ++ [sourceAccountId])

/-- `createOrUpdateAccount` of financial-model.ts, including the
disconnect of a previous overflow target. -/
def createOrUpdateAccount (accounts : Accounts) (accountId : String)
    (capacity : Option ℚ) (overflowTargetId : Option (Option String))
    (dirty : List String) : Accounts × List String :=
  let account0 := mget accounts accountId emptyAccount
  let account1 :=
    if account0.accountId ≠ accountId then { account0 with accountId := accountId }
    else account0
  let account2 :=
    match capacity with
    | some c => { account1 with capacity := c }
    | none => account1
  let step :=
    match overflowTargetId with
    | some newTarget =>
      if newTarget ≠ account2.overflowTargetId then
        let accounts1 :=
          match account2.overflowTargetId with
          | some previousOverflowTargetId =>
            let prev := mget accounts previousOverflowTargetId emptyAccount
            mset accounts previousOverflowTargetId
              { prev with overflowInflows := mset prev.overflowInflows accountId 0 }
          | none => accounts
        (accounts1, { account2 with overflowTargetId := newTarget })
      else (accounts, account2)
    | none => (accounts, account2)
  (mset step.1 accountId step.2, dirty ++ [accountId])

/-- `dispatchAction` of financial-model.ts: `DeleteAccount` throws
`new Error("not implemented")`. -/
def dispatchAction (accounts : Accounts) (dirty : List String) :
    UserAction → Except Err (Accounts × List String)
  | .createOrUpdateAccount accountId capacity overflowTargetId =>
    .ok (createOrUpdateAccount accounts accountId capacity overflowTargetId dirty)
  | .injectMoney accountId amount => .ok (injectMoney accounts accountId amount dirty)
  | .updateDrain s t maxRate => .ok (updateDrain accounts s t maxRate dirty)
  | .deleteDrain s t => .ok (deleteDrain accounts s t dirty)
  | .deleteAccount _ => .error .notImplemented

/-- `applyActions` of financial-model.ts: fold the actions of one batch
over the graph, threading the dirty list. -/
def applyActions (accounts : Accounts) (dirty : List String) :
    List UserAction → Except Err (Accounts × List String)
  | [] => .ok (accounts, dirty)
  | action :: rest =>
    match dispatchAction accounts dirty action with
    | .error e => .error e
    | .ok (accounts1, dirty1) => applyActions accounts1 dirty1 rest

/-- Working state of one iteration of the `updateTransients` worklist
loop: the local `account` variable, the threaded `accounts` map, the
`accountChanged` flag and the accounts pushed onto the dirty queue. -/
structure RelaxState where
  account : AccountState
  accounts : Accounts
  changed : Bool
  pushes : List String
  deriving DecidableEq

/-- Write `rate` into `drainInflows[sourceId]` of account `targetId`:
`accounts.setIn([targetId, "drainInflows", sourceId], rate)`.  A missing
target entry is materialized from the default record, per the
lazy-creation policy of the engine. -/
def setDrainInflow (accounts : Accounts) (targetId sourceId : String) (rate : ℚ) : Accounts :=
  let target := mget accounts targetId emptyAccount
  mset accounts targetId
    { target with drainInflows := mset target.drainInflows sourceId rate }

/-- The shared shape of the two drain `for`-loops of `updateTransients`.
Both loops walk `drainSizes`, compare the stale effective rate read from
the pre-loop `drainEffectiveRates` map against an intended rate, and on
a difference write the intended rate to the local account and to the
drain inflows of the target, pushing the target dirty.  The full-rate
branch passes `intendedOf = id` (intended rate is the configured
`potentialRate`); the inflow-limited branch passes the proportional
share. -/
def drainLoop (accountId : String) (intendedOf : ℚ → ℚ) (dER0 : List (String × ℚ)) :
    List (String × ℚ) → RelaxState → RelaxState
  | [], st => st
  | (targetAccountId, potentialRate) :: rest, st =>
    let effectiveRate := mget dER0 targetAccountId 0
    let intendedRate := intendedOf potentialRate
    let st1 :=
      if effectiveRate ≠ intendedRate then
        { account :=
            { st.account with
              drainEffectiveRates := mset st.account.drainEffectiveRates targetAccountId intendedRate }
          accounts := setDrainInflow st.accounts targetAccountId accountId intendedRate
          changed := true
          pushes := st.pushes ++ [targetAccountId] }
      else st
    drainLoop accountId intendedOf dER0 rest st1

/-- The "calculate once-off overflow" step at the top of the
`updateTransients` loop body: if `fillLevel >= capacity` and an overflow
target exists, move the excess to the target, clamp the fill level to
the capacity and push the target dirty. -/
def relaxSpill (accounts0 : Accounts) (accountId : String) : RelaxState :=
  let account0 := mget accounts0 accountId emptyAccount
  match account0.overflowTargetId with
  | some overflowTargetId =>
    if account0.fillLevel ≥ account0.capacity then
      let overflowAmount := account0.fillLevel - account0.capacity
      let overflowAccount := mget accounts0 overflowTargetId emptyAccount
      { account := { account0 with fillLevel := account0.capacity }
        accounts := mset accounts0 overflowTargetId
          { overflowAccount with fillLevel := overflowAccount.fillLevel + overflowAmount }
        changed := true
        pushes := [overflowTargetId] }
    else { account := account0, accounts := accounts0, changed := false, pushes := [] }
  | none => { account := account0, accounts := accounts0, changed := false, pushes := [] }

/-- The tail of the `updateTransients` loop body: store the recomputed
`fillRate` and `overflowRate` on the local account if they differ.  On
an `overflowRate` change with an overflow target present, the source
computes `accounts.set(overflowTargetId, ...setIn(["overflowInflows",
accountId], overflowRate))` but DISCARDS the returned map (the result of
the immutable `set` on lines 567-570 of financial-model.ts is never
assigned, and the target is not marked dirty), so the graph is not
actually modified there; modelled faithfully as no map update. -/
def applyRateUpdates (fillRate overflowRate : ℚ) (st : RelaxState) : RelaxState :=
  let a2 := st.account
  let st2 :=
    if a2.fillRate ≠ fillRate then
      { st with account := { a2 with fillRate := fillRate }, changed := true }
    else st
  let a3 := st2.account
  if a3.overflowRate ≠ overflowRate then
    { st2 with account := { a3 with overflowRate := overflowRate }, changed := true }
  else st2

/-- One iteration of the `updateTransients` while-loop body: recompute
the transients of one popped dirty account.  Returns the updated graph
and the accounts pushed onto the dirty queue. -/
def relaxAccount (accounts0 : Accounts) (accountId : String) : Accounts × List String :=
  -- Calculate once-off overflow
  let st0 : RelaxState := relaxSpill accounts0 accountId
  let a1 := st0.account
  let drainInflowRate := sumVals a1.drainInflows
  let overflowInflowRate := sumVals a1.overflowInflows
  let effectiveInflowRate := drainInflowRate + overflowInflowRate
  -- Drains and fill rate
  let totalPotentialDrainRate := sumVals a1.drainSizes
  -- Run the drains at full capacity?
  let st1 :=
    if a1.fillLevel > 0 ∨ effectiveInflowRate ≥ totalPotentialDrainRate then
      drainLoop accountId (fun potentialRate => potentialRate)
        a1.drainEffectiveRates a1.drainSizes st0
    else -- The drains are limited by inflow rate, divided proportionately
      drainLoop accountId
        (fun potentialRate => effectiveInflowRate * potentialRate / totalPotentialDrainRate)
        a1.drainEffectiveRates a1.drainSizes st0
  let effectiveDrainRate :=
    if a1.fillLevel > 0 ∨ effectiveInflowRate ≥ totalPotentialDrainRate then
      totalPotentialDrainRate
    else effectiveInflowRate
  let a2 := st1.account
  let potentialFillRate := effectiveInflowRate - effectiveDrainRate
  let rates :=
    if potentialFillRate > 0 ∧ (a2.fillLevel < a2.capacity ∨ a2.overflowTargetId = none) then
      (potentialFillRate, (0 : ℚ)) -- Filling up
    else if potentialFillRate < 0 then
      (potentialFillRate, (0 : ℚ)) -- Filling down
    else
      ((0 : ℚ), potentialFillRate) -- Overflowing
  let st3 := applyRateUpdates rates.1 rates.2 st1
  let accountsF := if st3.changed then mset st3.accounts accountId st3.account else st3.accounts
  (accountsF, st3.pushes)

/-- `updateTransients` of financial-model.ts: FIFO worklist relaxation,
with explicit fuel bounding the number of popped accounts. -/
def updateTransients : ℕ → Accounts → List String → Option Accounts
  | _, accounts, [] => some accounts
  | 0, _, _ :: _ => none
  | fuel + 1, accounts, accountId :: rest =>
    let step := relaxAccount accounts accountId
    updateTransients fuel step.1 (rest ++ step.2)

/-- `projectLinear` of financial-model.ts: advance every account with a
nonzero fill rate by `fillRate * deltaTime`. -/
def projectLinear (state : HistorySnapshot) (timestamp : ℚ) : HistorySnapshot :=
  let deltaTime := Time.deltaQ timestamp state.timestamp
  { timestamp := .fin timestamp
    accounts := state.accounts.map (fun p =>
      if p.2.fillRate ≠ 0 then
        (p.1, { p.2 with fillLevel := p.2.fillLevel + p.2.fillRate * deltaTime })
      else p) }

/-- The two boundary modifiers produced by the nonlinearity scanner:
force the fill level to exactly `capacity`, or to exactly 0. -/
inductive Modifier where
  | toCapacity : Modifier
  | toZero : Modifier
  deriving DecidableEq, Repr

/-- Apply a boundary modifier to an account. -/
def applyModifier : Modifier → AccountState → AccountState
  | .toCapacity, a => { a with fillLevel := a.capacity }
  | .toZero, a => { a with fillLevel := 0 }

/-- The `NonLinearities` accumulator of `calculateNextNonlinearities`. -/
structure NonLinearities where
  timestamp : Time
  accounts : List (String × Modifier)
  deriving DecidableEq, Repr

/-- The inner `nonlinearity` helper: keep the earliest candidates,
grouping exact ties. -/
def nlAdd (best : NonLinearities) (timestamp : Time) (x : String × Modifier) : NonLinearities :=
  if timestamp ≤ best.timestamp then
    if timestamp = best.timestamp then { best with accounts := best.accounts ++ [x] }
    else { timestamp := timestamp, accounts := [x] }
  else best

/-- `calculateNextNonlinearities` of financial-model.ts: scan every
account for a fill-up or empty boundary crossing and keep the earliest
candidates. -/
def calculateNextNonlinearities (state : HistorySnapshot) : NonLinearities :=
  state.accounts.foldl
    (fun best p =>
      let account := p.2
      -- Fill up
      let best1 :=
        if account.fillRate > 0 ∧ account.fillLevel < account.capacity then
          nlAdd best
            (state.timestamp.addQ ((account.capacity - account.fillLevel) / account.fillRate))
            (p.1, .toCapacity)
        else best
      -- Empty
      if account.fillRate < 0 ∧ account.fillLevel > 0 then
        nlAdd best1 (state.timestamp.addQ (account.fillLevel / (-account.fillRate)))
          (p.1, .toZero)
      else best1)
    { timestamp := .posInf, accounts := [] }

/-- Apply the tied boundary modifiers of one nonlinearity event and
collect the dirty list.  The modifier ids always name existing accounts
(they come from the scan), so the `never` default of the source cannot
fire; a missing id would read the default record. -/
def applyModifiers (accounts : Accounts) :
    List (String × Modifier) → Accounts × List String
  | [] => (accounts, [])
  | (accountId, m) :: rest =>
    let accounts1 := mset accounts accountId (applyModifier m (mget accounts accountId emptyAccount))
    let step := applyModifiers accounts1 rest
    (step.1, accountId :: step.2)

/-- `computeIntermediateStates` of financial-model.ts: emit snapshots
for every nonlinearity event strictly before `targetTimestamp`, also
returning the state the loop stopped in.  Fuel bounds the number of
events.  An event at `-Infinity` could only come from a snapshot whose
timestamp is already `-Infinity`, which in the pipeline is the empty
initial snapshot producing no events; that dead branch is mapped to
`none`. -/
def computeIntermediateStates :
    ℕ → HistorySnapshot → Time → Option (List HistorySnapshot × HistorySnapshot)
  | 0, state, targetTimestamp =>
    if (calculateNextNonlinearities state).timestamp < targetTimestamp then none
    else some ([], state)
  | fuel + 1, state, targetTimestamp =>
    let nl := calculateNextNonlinearities state
    if nl.timestamp < targetTimestamp then
      match nl.timestamp with
      | .fin q =>
        let state1 := projectLinear state q
        let step := applyModifiers state1.accounts nl.accounts
        match updateTransients fuel step.1 step.2 with
        | none => none
        | some accounts2 =>
          let state2 : HistorySnapshot := { timestamp := state1.timestamp, accounts := accounts2 }
          match computeIntermediateStates fuel state2 targetTimestamp with
          | none => none
          | some (states, final) => some (state2 :: states, final)
      | _ => none
    else some ([], state)

/-- Stable insert for the timestamp sort (`_.sortBy(actions, "timestamp")`). -/
def insertSorted (g : UserActionGroup) : List UserActionGroup → List UserActionGroup
  | [] => [g]
  | g1 :: rest =>
    if g.timestamp ≤ g1.timestamp then g :: g1 :: rest else g1 :: insertSorted g rest

/-- Stable sort of the action groups by timestamp. -/
def sortBatches : List UserActionGroup → List UserActionGroup
  | [] => []
  | g :: rest => insertSorted g (sortBatches rest)

/-- One iteration of the batch loop of `computeFinancialHistory`:
intermediate nonlinearity snapshots up to the batch timestamp, linear
projection to it, the batch actions, relaxation, and the batch
snapshot.  Returns the snapshots pushed and the final state. -/
def historyStep (fuel : ℕ) (state : HistorySnapshot) (g : UserActionGroup) :
    Except Err (List HistorySnapshot × HistorySnapshot) :=
  match computeIntermediateStates fuel state (.fin g.timestamp) with
  | none => .error .outOfFuel
  | some (inter, state1) =>
    let state2 := projectLinear state1 g.timestamp
    match applyActions state2.accounts [] g.actions with
    | .error e => .error e
    | .ok (accounts1, dirty) =>
      match updateTransients fuel accounts1 dirty with
      | none => .error .outOfFuel
      | some accounts2 =>
        let state3 : HistorySnapshot := { timestamp := state2.timestamp, accounts := accounts2 }
        .ok (inter ++ [state3], state3)

/-- The batch loop of `computeFinancialHistory`. -/
def runBatches (fuel : ℕ) :
    HistorySnapshot → List UserActionGroup → Except Err (List HistorySnapshot × HistorySnapshot)
  | state, [] => .ok ([], state)
  | state, g :: rest =>
    match historyStep fuel state g with
    | .error e => .error e
    | .ok (h1, state1) =>
      match runBatches fuel state1 rest with
      | .error e => .error e
      | .ok (h2, state2) => .ok (h1 ++ h2, state2)

/-- The initial state: empty graph at timestamp `-Infinity`. -/
def initialSnapshot : HistorySnapshot := { timestamp := .negInf, accounts := [] }

/-- `computeFinancialHistory` of financial-model.ts: sort the batches,
run the batch loop from the initial snapshot, then drain the remaining
nonlinearities up to `Infinity`. -/
def computeFinancialHistory (fuel : ℕ) (actions : List UserActionGroup) :
    Except Err (List HistorySnapshot) :=
  match runBatches fuel initialSnapshot (sortBatches actions) with
  | .error e => .error e
  | .ok (h, final) =>
    match computeIntermediateStates fuel final .posInf with
    | none => .error .outOfFuel
    | some (inter, _) => .ok (h ++ inter)

/-! Observation helpers used to state properties of emitted histories. -/

/-- The account record stored for `accountId` in the `i`-th emitted
snapshot of a history computation (the default record if absent). -/
def historyAccount (res : Except Err (List HistorySnapshot)) (i : ℕ)
    (accountId : String) : Option AccountState :=
  match res with
  | .ok h => (h.get? i).map (fun s => mget s.accounts accountId emptyAccount)
  | .error _ => none

/-- The timestamp of the `i`-th emitted snapshot. -/
def historyTimestamp (res : Except Err (List HistorySnapshot)) (i : ℕ) : Option Time :=
  match res with
  | .ok h => (h.get? i).map HistorySnapshot.timestamp
  | .error _ => none

/-- Sum of all fill levels in the graph. -/
def sumFill (accounts : Accounts) : ℚ :=
  (accounts.map (fun p => p.2.fillLevel)).sum

/-- The graph has no drain edges and no overflow edges: no account has
an overflow target, configured drains, or recorded drain/overflow
inflows. -/
def noEdges (accounts : Accounts) : Prop :=
  ∀ p ∈ accounts, p.2.overflowTargetId = none ∧ p.2.drainSizes = [] ∧
    p.2.drainInflows = [] ∧ p.2.overflowInflows = []

/-- The fill level of a dirty account as seen by the drain-allocation
branch of the `updateTransients` body, i.e. after the once-off overflow
spill clamped it (the spill fires exactly when `fillLevel >= capacity`
and an overflow target exists). -/
def postSpillLevel (a : AccountState) : ℚ :=
  match a.overflowTargetId with
  | some _ => if a.fillLevel ≥ a.capacity then a.capacity else a.fillLevel
  | none => a.fillLevel

/-- Total inflow rate of an account (drain inflows plus overflow
inflows), as summed by the `updateTransients` body. -/
def inflowRate (a : AccountState) : ℚ :=
  sumVals a.drainInflows + sumVals a.overflowInflows

/-- Total configured drain demand of an account. -/
def totalDrain (a : AccountState) : ℚ :=
  sumVals a.drainSizes

/-! Concrete scenarios used by the claims. -/

/-- A one-batch scenario with a drain-fed account `a` of capacity 0
overflowing into `b`: `c` holds 100 and drains into `a` at rate 1, so
after relaxation `a` has `overflowRate = 1` toward `b`. -/
def inputOverflowRate : List UserActionGroup :=
  [ { timestamp := 0
      actions :=
        [ .createOrUpdateAccount "c" (some 100) none
        , .injectMoney "c" 100
        , .createOrUpdateAccount "a" (some 0) (some (some "b"))
        , .createOrUpdateAccount "b" none none
        , .updateDrain "c" "a" 1 ] } ]

/-- A scenario whose second batch timestamp (t = 10) coincides exactly
with the instant account `a` (capacity 10, fill rate 1, overflow target
`b`) reaches capacity, and whose third batch is at t = 15. -/
def inputCapacityTie : List UserActionGroup :=
  [ { timestamp := 0
      actions :=
        [ .createOrUpdateAccount "c" (some 100) none
        , .injectMoney "c" 100
        , .createOrUpdateAccount "a" (some 10) (some (some "b"))
        , .createOrUpdateAccount "b" none none
        , .updateDrain "c" "a" 1 ] }
  , { timestamp := 10, actions := [ .createOrUpdateAccount "d" none none ] }
  , { timestamp := 15, actions := [ .createOrUpdateAccount "d" none none ] } ]

/-- Scenario 3+4 of the spec in one batch: `a` holds 15 with capacity 12
when the overflow target `b` is set. -/
def inputSpill : List UserActionGroup :=
  [ { timestamp := 0
      actions :=
        [ .createOrUpdateAccount "a" (some 12) none
        , .injectMoney "a" 15
        , .createOrUpdateAccount "a" none (some (some "b"))
        , .createOrUpdateAccount "b" none none ] } ]

/-- Scenario 5 of the spec: `a` holds 12 (capacity 12) and gets a single
drain of maxRate 3 toward `c`, so it empties exactly 4 time units
later. -/
def inputDrainEmpty : List UserActionGroup :=
  [ { timestamp := 0
      actions :=
        [ .createOrUpdateAccount "a" (some 12) none
        , .injectMoney "a" 12
        , .createOrUpdateAccount "c" none none
        , .updateDrain "a" "c" 3 ] } ]

/-- Two action batches sharing timestamp 0, touching no accounts at
all. -/
def inputEqualBatches : List UserActionGroup :=
  [ { timestamp := 0, actions := [] }, { timestamp := 0, actions := [] } ]

/-- A batch containing the unsupported `DeleteAccount` action. -/
def inputDeleteAccount : List UserActionGroup :=
  [ { timestamp := 0, actions := [ .deleteAccount "a" ] } ]

theorem Time.fin_ne_posInf (q : ℚ) : (Time.fin q = Time.posInf) = False :=
  eq_false (fun h => Time.noConfusion h)

theorem Time.posInf_ne_fin (q : ℚ) : (Time.posInf = Time.fin q) = False :=
  eq_false (fun h => Time.noConfusion h)

theorem Time.fin_ne_negInf (q : ℚ) : (Time.fin q = Time.negInf) = False :=
  eq_false (fun h => Time.noConfusion h)

theorem Time.negInf_ne_fin (q : ℚ) : (Time.negInf = Time.fin q) = False :=
  eq_false (fun h => Time.noConfusion h)

theorem Time.negInf_ne_posInf : (Time.negInf = Time.posInf) = False :=
  eq_false (fun h => Time.noConfusion h)

theorem Time.posInf_ne_negInf : (Time.posInf = Time.negInf) = False :=
  eq_false (fun h => Time.noConfusion h)

theorem Time.le_iff_ble (a b : Time) : a ≤ b ↔ Time.ble a b = true := Iff.rfl

theorem Time.lt_iff_ble (a b : Time) : a < b ↔ Time.ble b a = false := Iff.rfl

/-- A one-account graph for the C4 witness: `a` holds 15 with capacity
12 and overflow target `b`. -/
def spillDemo : Accounts :=
  [("a", { emptyAccount with capacity := 12, fillLevel := 15, overflowTargetId := some "b" })]

/-- A one-account graph for the C3 witness: `a` is empty, receives
inflow 2 and has two drains of sizes 3 and 1 (total demand 4), so the
drains are inflow-limited and share proportionally. -/
def drainDemo : Accounts :=
  [("a", { emptyAccount with
    drainSizes := [("t1", 3), ("t2", 1)]
    drainInflows := [("x", 2)] })]

/-- Last element of `a :: l`, used to track the state a snapshot run
ends in. -/
def lastD {α : Type} (a : α) : List α → α
  | [] => a
  | b :: l => lastD b l

/-! Small decision lemmas letting `simp`/`norm_num` evaluate the model
on the concrete account ids of the scenarios. -/

theorem strAB : (("a" : String) = "b") = False := eq_false (by decide)

theorem strAC : (("a" : String) = "c") = False := eq_false (by decide)

theorem strAD : (("a" : String) = "d") = False := eq_false (by decide)

theorem strAE : (("a" : String) = "") = False := eq_false (by decide)

theorem strBA : (("b" : String) = "a") = False := eq_false (by decide)

theorem strBC : (("b" : String) = "c") = False := eq_false (by decide)

theorem strBD : (("b" : String) = "d") = False := eq_false (by decide)

theorem strBE : (("b" : String) = "") = False := eq_false (by decide)

theorem strCA : (("c" : String) = "a") = False := eq_false (by decide)

theorem strCB : (("c" : String) = "b") = False := eq_false (by decide)

theorem strCD : (("c" : String) = "d") = False := eq_false (by decide)

theorem strCE : (("c" : String) = "") = False := eq_false (by decide)

theorem strDA : (("d" : String) = "a") = False := eq_false (by decide)

theorem strDB : (("d" : String) = "b") = False := eq_false (by decide)

theorem strDC : (("d" : String) = "c") = False := eq_false (by decide)

theorem strDE : (("d" : String) = "") = False := eq_false (by decide)

theorem strEA : ((("") : String) = "a") = False := eq_false (by decide)

theorem strEB : ((("") : String) = "b") = False := eq_false (by decide)

theorem strEC : ((("") : String) = "c") = False := eq_false (by decide)

theorem strED : ((("") : String) = "d") = False := eq_false (by decide)

theorem someNoneS (s : String) : ((some s : Option String) = none) = False := eq_false (by simp)

theorem noneSomeS (s : String) : ((none : Option String) = some s) = False := eq_false (by simp)

set_option maxHeartbeats 4000000 in
/-- C1.  The cross-account overflow consistency the spec asserts is
violated by the code: in the very first snapshot emitted for
`inputOverflowRate`, account `a` carries `overflowRate = 1` toward its
overflow target `b`, yet the `overflowInflows` entry of `b` for `a` is
still 0.  The `updateTransients` body computes the update of the
target's `overflowInflows` but discards the returned map (the result of
`accounts.set(...)` on lines 567-570 of financial-model.ts is never
assigned), and does not mark the target dirty, so the relaxation engine
never restores the overflow half of the invariant. -/
theorem C1_overflow_inflow_divergence :
    (historyAccount (computeFinancialHistory 12 inputOverflowRate) 0 "a").map
        AccountState.overflowRate = some 1 ∧
    (historyAccount (computeFinancialHistory 12 inputOverflowRate) 0 "a").map
        AccountState.overflowTargetId = some (some "b") ∧
    (historyAccount (computeFinancialHistory 12 inputOverflowRate) 0 "b").map
        (fun b => mget b.overflowInflows "a" 0) = some 0 ∧
    (1 : ℚ) ≠ 0 := by
  norm_num [historyAccount, computeFinancialHistory, inputOverflowRate, sortBatches, insertSorted,
    runBatches, historyStep, computeIntermediateStates, calculateNextNonlinearities, nlAdd,
    projectLinear, applyModifiers, applyModifier, applyActions, dispatchAction,
    createOrUpdateAccount, injectMoney, updateDrain, updateTransients, relaxAccount, relaxSpill, applyRateUpdates,
    drainLoop, setDrainInflow, mget, mset, sumVals, Time.addQ, Time.deltaQ, Time.ble,
    Time.le_iff_ble, Time.lt_iff_ble, Time.fin_ne_posInf, Time.posInf_ne_fin, Time.fin_ne_negInf,
    Time.negInf_ne_fin, Time.negInf_ne_posInf, Time.posInf_ne_negInf, initialSnapshot, emptyAccount,
    strAB, strAC, strAD, strAE, strBA, strBC, strBD, strBE, strCA, strCB, strCD, strCE,
    strDA, strDB, strDC, strDE, strEA, strEB, strEC, strED, someNoneS, noneSomeS]

set_option maxHeartbeats 4000000 in
/-- C2.  The capacity bound `fillLevel <= capacity` for accounts with an
overflow target is violated in an emitted snapshot: in
`inputCapacityTie` the batch at t = 10 coincides exactly with the
instant `a` (capacity 10, fill rate 1, overflow target `b`) reaches
capacity, so the strict `<` of the event loop skips the event and the
fill-up scan (which requires `fillLevel < capacity`) never fires again;
the snapshot emitted at t = 15 shows `a.fillLevel = 15 > capacity = 10`
while `overflowTargetId` is set. -/
theorem C2_capacity_bound_divergence :
    historyTimestamp (computeFinancialHistory 12 inputCapacityTie) 2 = some (.fin 15) ∧
    (historyAccount (computeFinancialHistory 12 inputCapacityTie) 2 "a").map
        (fun a => (a.fillLevel, a.capacity, a.overflowTargetId)) = some (15, 10, some "b") ∧
    ¬ ((15 : ℚ) ≤ 10) := by
  norm_num [historyAccount, historyTimestamp, computeFinancialHistory, inputCapacityTie,
    sortBatches, insertSorted,
    runBatches, historyStep, computeIntermediateStates, calculateNextNonlinearities, nlAdd,
    projectLinear, applyModifiers, applyModifier, applyActions, dispatchAction,
    createOrUpdateAccount, injectMoney, updateDrain, updateTransients, relaxAccount, relaxSpill, applyRateUpdates,
    drainLoop, setDrainInflow, mget, mset, sumVals, Time.addQ, Time.deltaQ, Time.ble,
    Time.le_iff_ble, Time.lt_iff_ble, Time.fin_ne_posInf, Time.posInf_ne_fin, Time.fin_ne_negInf,
    Time.negInf_ne_fin, Time.negInf_ne_posInf, Time.posInf_ne_negInf, initialSnapshot, emptyAccount,
    strAB, strAC, strAD, strAE, strBA, strBC, strBD, strBE, strCA, strCB, strCD, strCE,
    strDA, strDB, strDC, strDE, strEA, strEB, strEC, strED, someNoneS, noneSomeS]

/-- Advancing a single account record by `delta` time units: the
conditional of the source (skip accounts with zero fill rate) agrees
with the unconditional affine update. -/
theorem projAccount_eq (delta : ℚ) (a : AccountState) :
    (if a.fillRate ≠ 0 then
        { a with fillLevel := a.fillLevel + a.fillRate * delta }
      else a)
      = { a with fillLevel := a.fillLevel + a.fillRate * delta } := by
  rcases a with ⟨aid, cap, ot, ds, fl, fr, orate, der, di, oi⟩
  by_cases hr : fr = 0
  · subst hr
    rw [if_neg (by simp)]
    simp
  · rw [if_pos (by simpa using hr)]

/-- The projection map of `projectLinear` acts on values only. -/
theorem projMap_eq (delta : ℚ) :
    (fun p : String × AccountState =>
        if p.2.fillRate ≠ 0 then
          (p.1, { p.2 with fillLevel := p.2.fillLevel + p.2.fillRate * delta })
        else p)
      = fun p : String × AccountState =>
        (p.1, { p.2 with fillLevel := p.2.fillLevel + p.2.fillRate * delta }) := by
  funext p
  rw [show (if p.2.fillRate ≠ 0 then
        (p.1, { p.2 with fillLevel := p.2.fillLevel + p.2.fillRate * delta })
      else p)
      = (p.1, if p.2.fillRate ≠ 0 then
          { p.2 with fillLevel := p.2.fillLevel + p.2.fillRate * delta }
        else p.2) from by by_cases hr : p.2.fillRate = 0 <;> simp [hr]]
  rw [projAccount_eq]

/-- Lookup commutes with a value-only map of the account list, provided
the default record is a fixed point of the value function. -/
theorem mget_map_snd (f : AccountState → AccountState) (hf : f emptyAccount = emptyAccount) :
    ∀ (l : List (String × AccountState)) (key : String),
      mget (l.map (fun p => (p.1, f p.2))) key emptyAccount = f (mget l key emptyAccount) := by
  intro l
  induction l with
  | nil => intro key; simp [mget, hf]
  | cons p rest ih =>
    intro key
    by_cases hk : p.1 = key
    · simp [mget, hk]
    · simp [mget, hk, ih]

/-- C9.  `projectLinear` sets the snapshot timestamp to the target,
keeps the key sequence of the account map, and maps every account (the
default record for absent ids) to the same record with only `fillLevel`
advanced by `fillRate * (targetTimestamp - snapshot.timestamp)`: all
rate fields and static fields are unchanged because the whole record
apart from `fillLevel` is copied.  The embedded `projectLinear` neither
consumes nor produces a dirty list, mirroring that the source function
never touches `dirtyAccounts`. -/
theorem C9_project_linear_frame (s : HistorySnapshot) (q t : ℚ)
    (hq : s.timestamp = .fin q) :
    (projectLinear s t).timestamp = .fin t ∧
    (projectLinear s t).accounts.map Prod.fst = s.accounts.map Prod.fst ∧
    ∀ accountId,
      mget (projectLinear s t).accounts accountId emptyAccount =
        { mget s.accounts accountId emptyAccount with
          fillLevel := (mget s.accounts accountId emptyAccount).fillLevel
            + (mget s.accounts accountId emptyAccount).fillRate * (t - q) } := by
  have hfix : { emptyAccount with
      fillLevel := emptyAccount.fillLevel
        + emptyAccount.fillRate * Time.deltaQ t s.timestamp } = emptyAccount := by
    simp [emptyAccount]
  refine ⟨rfl, ?_, ?_⟩
  · show (s.accounts.map _).map Prod.fst = s.accounts.map Prod.fst
    rw [projMap_eq (Time.deltaQ t s.timestamp)]
    rw [List.map_map]
    rfl
  · intro accountId
    show mget (s.accounts.map _) accountId emptyAccount = _
    rw [projMap_eq (Time.deltaQ t s.timestamp)]
    rw [mget_map_snd
        (fun a => { a with fillLevel := a.fillLevel + a.fillRate * Time.deltaQ t s.timestamp })
        hfix]
    rw [hq]
    rfl

/-- Witness for C9 at a concrete snapshot: one account at fill level 7
with fill rate 2, projected from timestamp 2 to timestamp 5. -/
theorem C9_project_linear_frame_witness :
    (projectLinear
        { timestamp := .fin 2
          accounts := [("a", { emptyAccount with fillLevel := 7, fillRate := 2 })] }
        5).timestamp = .fin 5 ∧
    (projectLinear
        { timestamp := .fin 2
          accounts := [("a", { emptyAccount with fillLevel := 7, fillRate := 2 })] }
        5).accounts.map Prod.fst =
      ([("a", { emptyAccount with fillLevel := 7, fillRate := 2 })] :
        List (String × AccountState)).map Prod.fst ∧
    ∀ accountId,
      mget (projectLinear
          { timestamp := .fin 2
            accounts := [("a", { emptyAccount with fillLevel := 7, fillRate := 2 })] }
          5).accounts accountId emptyAccount =
        { mget [("a", { emptyAccount with fillLevel := 7, fillRate := 2 })] accountId emptyAccount with
          fillLevel :=
            (mget [("a", { emptyAccount with fillLevel := 7, fillRate := 2 })] accountId
                emptyAccount).fillLevel
              + (mget [("a", { emptyAccount with fillLevel := 7, fillRate := 2 })] accountId
                  emptyAccount).fillRate * (5 - 2) } :=
  C9_project_linear_frame
    { timestamp := .fin 2
      accounts := [("a", { emptyAccount with fillLevel := 7, fillRate := 2 })] } 2 5 rfl

/-- C10.  On an empty action list the engine emits an empty history: the
batch loop runs zero times and the final scan of the empty initial
snapshot at timestamp `-Infinity` finds no nonlinearity, so no snapshot
is emitted for the initial state. -/
theorem C10_empty_actions_empty_history :
    ∀ fuel, computeFinancialHistory fuel [] = .ok [] := by
  intro fuel
  cases fuel <;> rfl

/-- Witness for C10 at fuel 3. -/
theorem C10_empty_actions_empty_history_witness :
    computeFinancialHistory 3 [] = .ok [] :=
  C10_empty_actions_empty_history 3

/-- Membership is preserved by the stable insert of the batch sort. -/
theorem mem_insertSorted (g : UserActionGroup) :
    ∀ (l : List UserActionGroup) (g1 : UserActionGroup),
      g1 ∈ insertSorted g l ↔ g1 = g ∨ g1 ∈ l := by
  intro l
  induction l with
  | nil => intro g1; simp [insertSorted]
  | cons g2 rest ih =>
    intro g1
    by_cases hle : g.timestamp ≤ g2.timestamp
    · simp [insertSorted, hle]
    · simp [insertSorted, hle, ih g1]
      tauto

/-- The batch sort neither adds nor removes batches. -/
theorem mem_sortBatches :
    ∀ (l : List UserActionGroup) (g1 : UserActionGroup),
      g1 ∈ sortBatches l ↔ g1 ∈ l := by
  intro l
  induction l with
  | nil => intro g1; simp [sortBatches]
  | cons g rest ih =>
    intro g1
    simp [sortBatches, mem_insertSorted, ih g1]

/-- If applying a batch's action list succeeds, the list contained no
`DeleteAccount` action. -/
theorem applyActions_ok_no_delete :
    ∀ (acts : List UserAction) (accounts : Accounts) (dirty : List String)
      (res : Accounts × List String),
      applyActions accounts dirty acts = .ok res →
      ∀ a ∈ acts, ∀ id, a ≠ .deleteAccount id := by
  intro acts
  induction acts with
  | nil => intro accounts dirty res _ a ha; cases ha
  | cons act rest ih =>
    intro accounts dirty res h a ha id
    rcases List.mem_cons.mp ha with rfl | hmem
    · intro hdel
      subst hdel
      simp [applyActions, dispatchAction] at h
    · cases act with
      | createOrUpdateAccount x c o =>
        exact ih _ _ _ (by simpa [applyActions, dispatchAction] using h) a hmem id
      | injectMoney x amt =>
        exact ih _ _ _ (by simpa [applyActions, dispatchAction] using h) a hmem id
      | updateDrain sId tId r =>
        exact ih _ _ _ (by simpa [applyActions, dispatchAction] using h) a hmem id
      | deleteDrain sId tId =>
        exact ih _ _ _ (by simpa [applyActions, dispatchAction] using h) a hmem id
      | deleteAccount x =>
        simp [applyActions, dispatchAction] at h

/-- If one batch step succeeds, its batch contained no `DeleteAccount`. -/
theorem historyStep_ok_no_delete (fuel : ℕ) (state : HistorySnapshot)
    (g : UserActionGroup) (res : List HistorySnapshot × HistorySnapshot)
    (h : historyStep fuel state g = .ok res) :
    ∀ a ∈ g.actions, ∀ id, a ≠ .deleteAccount id := by
  unfold historyStep at h
  split at h
  · exact absurd h (by simp)
  · dsimp only at h
    split at h
    · exact absurd h (by simp)
    · rename_i accounts1 dirty happ
      exact applyActions_ok_no_delete _ _ _ _ happ

/-- If the batch loop succeeds, no processed batch contained a
`DeleteAccount`. -/
theorem runBatches_ok_no_delete :
    ∀ (gs : List UserActionGroup) (fuel : ℕ) (state : HistorySnapshot)
      (res : List HistorySnapshot × HistorySnapshot),
      runBatches fuel state gs = .ok res →
      ∀ g ∈ gs, ∀ a ∈ g.actions, ∀ id, a ≠ .deleteAccount id := by
  intro gs
  induction gs with
  | nil => intro fuel state res _ g hg; cases hg
  | cons g1 rest ih =>
    intro fuel state res h g hg
    unfold runBatches at h
    split at h
    · exact absurd h (by simp)
    · rename_i l1 state1 hstep
      split at h
      · exact absurd h (by simp)
      · rename_i l2 state2 hrest
        rcases List.mem_cons.mp hg with rfl | hmem
        · exact historyStep_ok_no_delete _ _ _ _ hstep
        · exact ih _ _ _ hrest g hmem

/-- C8.  Any input containing a `DeleteAccount` action aborts the whole
history computation: no fuel bound ever yields a successful history
(fail-fast, no partial result), and unless a fuel bound is exhausted
first the surfaced failure is exactly the explicit "not implemented"
error thrown by `dispatchAction`. -/
theorem C8_delete_account_fails (actions : List UserActionGroup) (fuel : ℕ)
    (h : ∃ g ∈ actions, ∃ a ∈ g.actions, ∃ id, a = UserAction.deleteAccount id) :
    (∀ hist, computeFinancialHistory fuel actions ≠ .ok hist) ∧
    (computeFinancialHistory fuel actions = .error .notImplemented ∨
      computeFinancialHistory fuel actions = .error .outOfFuel) := by
  obtain ⟨g, hg, a, ha, id, hid⟩ := h
  have hmain : ∀ hist, computeFinancialHistory fuel actions ≠ .ok hist := by
    intro hist hok
    unfold computeFinancialHistory at hok
    split at hok
    · exact absurd hok (by simp)
    · rename_i pr hrb
      exact runBatches_ok_no_delete _ _ _ _ hrb g ((mem_sortBatches actions g).mpr hg)
        a ha id hid
  refine ⟨hmain, ?_⟩
  cases hres : computeFinancialHistory fuel actions with
  | ok hist => exact absurd hres (hmain hist)
  | error e =>
    cases e with
    | notImplemented => exact Or.inl rfl
    | outOfFuel => exact Or.inr rfl

/-- Witness for C8: a single batch `[DeleteAccount a]` at t = 0 with
fuel 5. -/
theorem C8_delete_account_fails_witness :
    (∀ hist, computeFinancialHistory 5 inputDeleteAccount ≠ .ok hist) ∧
    (computeFinancialHistory 5 inputDeleteAccount = .error .notImplemented ∨
      computeFinancialHistory 5 inputDeleteAccount = .error .outOfFuel) :=
  C8_delete_account_fails inputDeleteAccount 5
    ⟨{ timestamp := 0, actions := [ .deleteAccount "a" ] }, by simp [inputDeleteAccount],
      .deleteAccount "a", by simp, "a", rfl⟩

theorem sumFill_cons (p : String × AccountState) (l : List (String × AccountState)) :
    sumFill (p :: l) = p.2.fillLevel + sumFill l := by
  simp [sumFill]

/-- Effect of one map update on the total fill level. -/
theorem sumFill_mset :
    ∀ (m : Accounts) (key : String) (v : AccountState),
      sumFill (mset m key v)
        = sumFill m + v.fillLevel - (mget m key emptyAccount).fillLevel := by
  intro m
  induction m with
  | nil => intro key v; simp [sumFill, mset, mget, emptyAccount]
  | cons p rest ih =>
    intro key v
    by_cases hk : p.1 = key
    · simp only [mset, mget, if_pos hk, sumFill_cons]
      ring
    · simp only [mset, mget, if_neg hk, sumFill_cons, ih key v]
      ring

/-- Every member of an updated map is an old member or the new pair. -/
theorem mem_mset :
    ∀ (m : Accounts) (key : String) (v : AccountState) (p : String × AccountState),
      p ∈ mset m key v → p ∈ m ∨ p = (key, v) := by
  intro m
  induction m with
  | nil => intro key v p hp; simp [mset] at hp; exact Or.inr hp
  | cons q rest ih =>
    intro key v p hp
    by_cases hk : q.1 = key
    · simp only [mset, if_pos hk] at hp
      rcases List.mem_cons.mp hp with rfl | hmem
      · exact Or.inr (by rw [hk])
      · exact Or.inl (List.mem_cons_of_mem q hmem)
    · simp only [mset, if_neg hk] at hp
      rcases List.mem_cons.mp hp with rfl | hmem
      · exact Or.inl (List.mem_cons_self _ _)
      · rcases ih key v p hmem with h1 | h2
        · exact Or.inl (List.mem_cons_of_mem q h1)
        · exact Or.inr h2

/-- In an edge-free graph every looked-up record is edge-free (absent
ids give the edge-free default record). -/
theorem noEdges_mget (m : Accounts) (h : noEdges m) (key : String) :
    (mget m key emptyAccount).overflowTargetId = none ∧
    (mget m key emptyAccount).drainSizes = [] ∧
    (mget m key emptyAccount).drainInflows = [] ∧
    (mget m key emptyAccount).overflowInflows = [] := by
  induction m with
  | nil => simp [mget, emptyAccount]
  | cons p rest ih =>
    by_cases hk : p.1 = key
    · have hp := h p (List.mem_cons_self _ _)
      simpa [mget, hk] using hp
    · have hrest : noEdges rest := fun q hq => h q (List.mem_cons_of_mem p hq)
      simpa [mget, hk] using ih hrest

/-- Updating an edge-free graph with an edge-free record keeps it
edge-free. -/
theorem noEdges_mset (m : Accounts) (key : String) (v : AccountState)
    (h : noEdges m) (hv : v.overflowTargetId = none ∧ v.drainSizes = [] ∧
      v.drainInflows = [] ∧ v.overflowInflows = []) :
    noEdges (mset m key v) := by
  intro p hp
  rcases mem_mset m key v p hp with hmem | rfl
  · exact h p hmem
  · exact hv

theorem applyRateUpdates_pushes (fr orr : ℚ) (st : RelaxState) :
    (applyRateUpdates fr orr st).pushes = st.pushes := by
  unfold applyRateUpdates
  dsimp only
  split <;> split <;> rfl

theorem applyRateUpdates_accounts (fr orr : ℚ) (st : RelaxState) :
    (applyRateUpdates fr orr st).accounts = st.accounts := by
  unfold applyRateUpdates
  dsimp only
  split <;> split <;> rfl

theorem applyRateUpdates_fillLevel (fr orr : ℚ) (st : RelaxState) :
    (applyRateUpdates fr orr st).account.fillLevel = st.account.fillLevel := by
  unfold applyRateUpdates
  dsimp only
  split <;> split <;> rfl

theorem applyRateUpdates_overflowTargetId (fr orr : ℚ) (st : RelaxState) :
    (applyRateUpdates fr orr st).account.overflowTargetId = st.account.overflowTargetId := by
  unfold applyRateUpdates
  dsimp only
  split <;> split <;> rfl

theorem applyRateUpdates_drainSizes (fr orr : ℚ) (st : RelaxState) :
    (applyRateUpdates fr orr st).account.drainSizes = st.account.drainSizes := by
  unfold applyRateUpdates
  dsimp only
  split <;> split <;> rfl

theorem applyRateUpdates_drainInflows (fr orr : ℚ) (st : RelaxState) :
    (applyRateUpdates fr orr st).account.drainInflows = st.account.drainInflows := by
  unfold applyRateUpdates
  dsimp only
  split <;> split <;> rfl

theorem applyRateUpdates_overflowInflows (fr orr : ℚ) (st : RelaxState) :
    (applyRateUpdates fr orr st).account.overflowInflows = st.account.overflowInflows := by
  unfold applyRateUpdates
  dsimp only
  split <;> split <;> rfl

theorem applyRateUpdates_drainEffectiveRates (fr orr : ℚ) (st : RelaxState) :
    (applyRateUpdates fr orr st).account.drainEffectiveRates
      = st.account.drainEffectiveRates := by
  unfold applyRateUpdates
  dsimp only
  split <;> split <;> rfl

/-- Relaxing any dirty account of an edge-free graph pushes nothing,
moves no money and keeps the graph edge-free: the spill step is skipped
(no overflow target), the drain loops walk an empty `drainSizes`, and
only the rate fields of the popped account can change. -/
theorem relaxAccount_noEdges (accounts0 : Accounts) (accountId : String)
    (h : noEdges accounts0) :
    (relaxAccount accounts0 accountId).2 = [] ∧
    sumFill (relaxAccount accounts0 accountId).1 = sumFill accounts0 ∧
    noEdges (relaxAccount accounts0 accountId).1 := by
  obtain ⟨h1, h2, h3, h4⟩ := noEdges_mget accounts0 h accountId
  have hspill : relaxSpill accounts0 accountId =
      { account := mget accounts0 accountId emptyAccount
        accounts := accounts0, changed := false, pushes := [] } := by
    unfold relaxSpill
    dsimp only
    rw [h1]
  unfold relaxAccount
  rw [hspill]
  dsimp only
  rw [h2]
  simp only [drainLoop, ite_self]
  refine ⟨?_, ?_, ?_⟩
  · rw [applyRateUpdates_pushes]
  · rw [applyRateUpdates_accounts]
    repeat' split
    all_goals
      first
        | (rw [sumFill_mset, applyRateUpdates_fillLevel]; ring)
        | rfl
  · rw [applyRateUpdates_accounts]
    repeat' split
    all_goals
      first
        | exact noEdges_mset _ _ _ h
            ⟨by rw [applyRateUpdates_overflowTargetId]; exact h1,
              by rw [applyRateUpdates_drainSizes]; exact h2,
              by rw [applyRateUpdates_drainInflows]; exact h3,
              by rw [applyRateUpdates_overflowInflows]; exact h4⟩
        | exact h

/-- Worklist relaxation of an edge-free graph terminates without
touching the total fill level and keeps the graph edge-free. -/
theorem updateTransients_noEdges :
    ∀ (fuel : ℕ) (accounts : Accounts) (dirty : List String) (accounts1 : Accounts),
      noEdges accounts → updateTransients fuel accounts dirty = some accounts1 →
      sumFill accounts1 = sumFill accounts ∧ noEdges accounts1 := by
  intro fuel
  induction fuel with
  | zero =>
    intro accounts dirty accounts1 h hres
    cases dirty with
    | nil =>
      simp only [updateTransients, Option.some.injEq] at hres
      subst hres; exact ⟨rfl, h⟩
    | cons id rest => simp [updateTransients] at hres
  | succ n ih =>
    intro accounts dirty accounts1 h hres
    cases dirty with
    | nil =>
      simp only [updateTransients, Option.some.injEq] at hres
      subst hres; exact ⟨rfl, h⟩
    | cons id rest =>
      obtain ⟨hp, hsum, hne⟩ := relaxAccount_noEdges accounts id h
      rw [show updateTransients (n + 1) accounts (id :: rest)
          = updateTransients n (relaxAccount accounts id).1
            (rest ++ (relaxAccount accounts id).2) from rfl, hp, List.append_nil] at hres
      obtain ⟨hs1, hn1⟩ := ih _ rest _ hne hres
      exact ⟨hs1.trans hsum, hn1⟩

/-- Injecting money changes the total fill level by exactly the
injected amount. -/
theorem sumFill_injectMoney (accounts : Accounts) (accountId : String) (amount : ℚ)
    (dirty : List String) :
    sumFill (injectMoney accounts accountId amount dirty).1 = sumFill accounts + amount := by
  unfold injectMoney
  dsimp only
  rw [sumFill_mset]
  split
  · dsimp only; ring
  · dsimp only; ring

/-- A linear projection of a snapshot whose accounts all have zero fill
rate moves no money. -/
theorem sumFill_projList (delta : ℚ) :
    ∀ (l : List (String × AccountState)), (∀ p ∈ l, p.2.fillRate = 0) →
      sumFill (l.map (fun p =>
        if p.2.fillRate ≠ 0 then
          (p.1, { p.2 with fillLevel := p.2.fillLevel + p.2.fillRate * delta })
        else p)) = sumFill l := by
  intro l
  induction l with
  | nil => intro _; rfl
  | cons p rest ih =>
    intro hz
    have hp : p.2.fillRate = 0 := hz p (List.mem_cons_self _ _)
    have hrest := fun q hq => hz q (List.mem_cons_of_mem p hq)
    simp only [List.map_cons, if_neg (by simp [hp] : ¬ p.2.fillRate ≠ 0), sumFill_cons, ih hrest]

/-- C7.  Conservation: (i) a single `InjectMoney` of `amount` raises the
total fill level of the whole graph by exactly `amount`; (ii) on a graph
with no drain edges and no overflow edges any subsequent relaxation
(`updateTransients`, any dirty list, any fuel) leaves the total
unchanged; (iii) a linear projection leaves the total unchanged whenever
every fill rate is zero, which relaxation establishes for every account
of an edge-free graph. -/
theorem C7_conservation :
    (∀ (accounts : Accounts) (accountId : String) (amount : ℚ) (dirty : List String),
      sumFill (injectMoney accounts accountId amount dirty).1 = sumFill accounts + amount) ∧
    (∀ (fuel : ℕ) (accounts : Accounts) (dirty : List String) (accounts1 : Accounts),
      noEdges accounts → updateTransients fuel accounts dirty = some accounts1 →
      sumFill accounts1 = sumFill accounts) ∧
    (∀ (s : HistorySnapshot) (t : ℚ), (∀ p ∈ s.accounts, p.2.fillRate = 0) →
      sumFill (projectLinear s t).accounts = sumFill s.accounts) := by
  refine ⟨sumFill_injectMoney, ?_, ?_⟩
  · intro fuel accounts dirty accounts1 h hres
    exact (updateTransients_noEdges fuel accounts dirty accounts1 h hres).1
  · intro s t hz
    exact sumFill_projList (Time.deltaQ t s.timestamp) s.accounts hz

/-- Witness for C7: inject 5 into `a` on the empty graph, relax the
empty graph with dirty list `[a]` and fuel 2, and project a zero-rate
one-account snapshot. -/
theorem C7_conservation_witness :
    sumFill (injectMoney [] "a" 5 []).1 = sumFill ([] : Accounts) + 5 ∧
    sumFill ([] : Accounts) = sumFill ([] : Accounts) ∧
    sumFill (projectLinear
        { timestamp := .fin 0
          accounts := [("a", { emptyAccount with fillLevel := 5 })] } 9).accounts
      = sumFill [("a", { emptyAccount with fillLevel := 5 })] := by
  refine ⟨C7_conservation.1 [] "a" 5 [], ?_, ?_⟩
  · exact C7_conservation.2.1 2 [] ["a"] []
      (by intro p hp; cases hp)
      (by norm_num [updateTransients, relaxAccount, relaxSpill, applyRateUpdates, drainLoop,
            mget, mset, sumVals, emptyAccount])
  · exact C7_conservation.2.2
      { timestamp := .fin 0
        accounts := [("a", { emptyAccount with fillLevel := 5 })] } 9
      (by intro p hp
          rcases List.mem_cons.mp hp with rfl | hmem
          · rfl
          · cases hmem)

theorem mget_mset_self {α : Type} :
    ∀ (m : List (String × α)) (key : String) (v d : α),
      mget (mset m key v) key d = v := by
  intro m
  induction m with
  | nil => intro key v d; simp [mget, mset]
  | cons p rest ih =>
    intro key v d
    by_cases hk : p.1 = key
    · simp [mget, mset, hk]
    · simp [mget, mset, hk, ih]

theorem mget_mset_ne {α : Type} :
    ∀ (m : List (String × α)) (key key1 : String) (v : α) (d : α),
      key ≠ key1 → mget (mset m key v) key1 d = mget m key1 d := by
  intro m
  induction m with
  | nil => intro key key1 v d hne; simp [mget, mset, hne]
  | cons p rest ih =>
    intro key key1 v d hne
    by_cases hk : p.1 = key
    · subst hk
      rw [show mset (p :: rest) p.1 v = (p.1, v) :: rest from by simp [mset]]
      simp only [mget]
      rw [if_neg hne, if_neg hne]
    · rw [show mset (p :: rest) key v = p :: mset rest key v from by simp [mset, hk]]
      simp only [mget]
      by_cases hp1 : p.1 = key1
      · rw [if_pos hp1, if_pos hp1]
      · rw [if_neg hp1, if_neg hp1]
        exact ih key key1 v d hne

/-- The spill step leaves the fill level of the local account at
exactly `postSpillLevel` of the stored record. -/
theorem relaxSpill_fillLevel (accounts0 : Accounts) (accountId : String) :
    (relaxSpill accounts0 accountId).account.fillLevel
      = postSpillLevel (mget accounts0 accountId emptyAccount) := by
  rcases ho : (mget accounts0 accountId emptyAccount).overflowTargetId with _ | b
  · simp only [relaxSpill, postSpillLevel, ho]
  · simp only [relaxSpill, postSpillLevel, ho]
    by_cases hge : (mget accounts0 accountId emptyAccount).fillLevel
        ≥ (mget accounts0 accountId emptyAccount).capacity
    · rw [if_pos hge, if_pos hge]
    · rw [if_neg hge, if_neg hge]

/-- The spill step touches no field of the local account apart from the
fill level. -/
theorem relaxSpill_account_rest (accounts0 : Accounts) (accountId : String) :
    (relaxSpill accounts0 accountId).account.drainSizes
        = (mget accounts0 accountId emptyAccount).drainSizes ∧
    (relaxSpill accounts0 accountId).account.drainInflows
        = (mget accounts0 accountId emptyAccount).drainInflows ∧
    (relaxSpill accounts0 accountId).account.overflowInflows
        = (mget accounts0 accountId emptyAccount).overflowInflows ∧
    (relaxSpill accounts0 accountId).account.drainEffectiveRates
        = (mget accounts0 accountId emptyAccount).drainEffectiveRates ∧
    (relaxSpill accounts0 accountId).account.capacity
        = (mget accounts0 accountId emptyAccount).capacity ∧
    (relaxSpill accounts0 accountId).account.overflowTargetId
        = (mget accounts0 accountId emptyAccount).overflowTargetId := by
  rcases ho : (mget accounts0 accountId emptyAccount).overflowTargetId with _ | b
  · simp [relaxSpill, ho]
  · by_cases hge : (mget accounts0 accountId emptyAccount).fillLevel
        ≥ (mget accounts0 accountId emptyAccount).capacity
    · simp [relaxSpill, ho, hge]
    · simp [relaxSpill, ho, hge]

/-- If the spill step did not set the changed flag it did nothing. -/
theorem relaxSpill_changed_false (accounts0 : Accounts) (accountId : String)
    (h : (relaxSpill accounts0 accountId).changed = false) :
    relaxSpill accounts0 accountId =
      { account := mget accounts0 accountId emptyAccount
        accounts := accounts0, changed := false, pushes := [] } := by
  rcases ho : (mget accounts0 accountId emptyAccount).overflowTargetId with _ | b
  · simp only [relaxSpill, ho]
  · simp only [relaxSpill, ho] at h ⊢
    by_cases hge : (mget accounts0 accountId emptyAccount).fillLevel
        ≥ (mget accounts0 accountId emptyAccount).capacity
    · rw [if_pos hge] at h
      exact absurd h (by simp)
    · rw [if_neg hge]

/-- When the popped account is at or above capacity with an overflow
target, the spill step clamps it, credits the target and pushes it
dirty. -/
theorem relaxSpill_spill (accounts0 : Accounts) (accountId b : String)
    (h1 : (mget accounts0 accountId emptyAccount).overflowTargetId = some b)
    (h2 : (mget accounts0 accountId emptyAccount).fillLevel
      ≥ (mget accounts0 accountId emptyAccount).capacity) :
    relaxSpill accounts0 accountId =
      { account := { mget accounts0 accountId emptyAccount with
          fillLevel := (mget accounts0 accountId emptyAccount).capacity }
        accounts := mset accounts0 b
          { mget accounts0 b emptyAccount with
            fillLevel := (mget accounts0 b emptyAccount).fillLevel
              + ((mget accounts0 accountId emptyAccount).fillLevel
                - (mget accounts0 accountId emptyAccount).capacity) }
        changed := true
        pushes := [b] } := by
  simp only [relaxSpill, h1]
  rw [if_pos h2]

/-- The drain loop never removes entries from the push list. -/
theorem drainLoop_pushes_sub (accountId : String) (f : ℚ → ℚ)
    (dER0 : List (String × ℚ)) :
    ∀ (sizes : List (String × ℚ)) (st : RelaxState) (x : String),
      x ∈ st.pushes → x ∈ (drainLoop accountId f dER0 sizes st).pushes := by
  intro sizes
  induction sizes with
  | nil => intro st x hx; exact hx
  | cons p rest ih =>
    intro st x hx
    show x ∈ (drainLoop accountId f dER0 rest _).pushes
    split
    · exact ih _ x (by simp; exact Or.inl hx)
    · exact ih _ x hx

/-- The drain loop either reports a change or did nothing at all. -/
theorem drainLoop_changed_or (accountId : String) (f : ℚ → ℚ)
    (dER0 : List (String × ℚ)) :
    ∀ (sizes : List (String × ℚ)) (st : RelaxState),
      (drainLoop accountId f dER0 sizes st).changed = true ∨
        drainLoop accountId f dER0 sizes st = st := by
  intro sizes
  induction sizes with
  | nil => intro st; exact Or.inr rfl
  | cons p rest ih =>
    obtain ⟨t0, r0⟩ := p
    intro st
    simp only [drainLoop]
    split
    · left
      rcases ih _ with hc | he
      · exact hc
      · rw [he]
    · exact ih st

/-- The drain loop never clears the changed flag. -/
theorem drainLoop_changed_mono (accountId : String) (f : ℚ → ℚ)
    (dER0 : List (String × ℚ)) (sizes : List (String × ℚ)) (st : RelaxState)
    (h : st.changed = true) :
    (drainLoop accountId f dER0 sizes st).changed = true := by
  rcases drainLoop_changed_or accountId f dER0 sizes st with hc | he
  · exact hc
  · rw [he]; exact h

/-- If the drain loop ends with the changed flag still clear, it wrote
nothing at all. -/
theorem drainLoop_changed_false (accountId : String) (f : ℚ → ℚ)
    (dER0 : List (String × ℚ)) (sizes : List (String × ℚ)) (st : RelaxState)
    (h : (drainLoop accountId f dER0 sizes st).changed = false) :
    drainLoop accountId f dER0 sizes st = st := by
  rcases drainLoop_changed_or accountId f dER0 sizes st with hc | he
  · rw [hc] at h
    exact absurd h (by simp)
  · exact he

/-- The drain loop does not touch the fill level of the local account. -/
theorem drainLoop_account_fillLevel (accountId : String) (f : ℚ → ℚ)
    (dER0 : List (String × ℚ)) :
    ∀ (sizes : List (String × ℚ)) (st : RelaxState),
      (drainLoop accountId f dER0 sizes st).account.fillLevel
        = st.account.fillLevel := by
  intro sizes
  induction sizes with
  | nil => intro st; rfl
  | cons p rest ih =>
    intro st
    show (drainLoop accountId f dER0 rest _).account.fillLevel = _
    split
    · rw [ih]
    · rw [ih]

/-- Writing a drain inflow entry touches no fill level. -/
theorem setDrainInflow_fillLevel (accounts : Accounts) (t s : String) (r : ℚ)
    (key : String) :
    (mget (setDrainInflow accounts t s r) key emptyAccount).fillLevel
      = (mget accounts key emptyAccount).fillLevel := by
  unfold setDrainInflow
  dsimp only
  by_cases hk : t = key
  · subst hk
    rw [mget_mset_self]
  · rw [mget_mset_ne _ _ _ _ _ hk]

/-- The drain loop touches no fill level anywhere in the graph. -/
theorem drainLoop_accounts_fillLevel (accountId : String) (f : ℚ → ℚ)
    (dER0 : List (String × ℚ)) :
    ∀ (sizes : List (String × ℚ)) (st : RelaxState) (key : String),
      (mget (drainLoop accountId f dER0 sizes st).accounts key emptyAccount).fillLevel
        = (mget st.accounts key emptyAccount).fillLevel := by
  intro sizes
  induction sizes with
  | nil => intro st key; rfl
  | cons p rest ih =>
    intro st key
    show (mget (drainLoop accountId f dER0 rest _).accounts key emptyAccount).fillLevel = _
    split
    · rw [ih]
      exact setDrainInflow_fillLevel st.accounts p.1 accountId (f p.2) key
    · rw [ih]

/-- Drain targets outside the configured drain list keep their stale
effective-rate entries. -/
theorem drainLoop_dER_notin (accountId : String) (f : ℚ → ℚ)
    (dER0 : List (String × ℚ)) :
    ∀ (sizes : List (String × ℚ)) (st : RelaxState) (t : String),
      t ∉ sizes.map Prod.fst →
      mget (drainLoop accountId f dER0 sizes st).account.drainEffectiveRates t 0
        = mget st.account.drainEffectiveRates t 0 := by
  intro sizes
  induction sizes with
  | nil => intro st t _; rfl
  | cons p rest ih =>
    intro st t ht
    have ht1 : p.1 ≠ t := fun hp => ht (by simp [hp])
    have ht2 : t ∉ rest.map Prod.fst := fun hp => ht (by simp [hp])
    show mget (drainLoop accountId f dER0 rest _).account.drainEffectiveRates t 0 = _
    split
    · rw [ih _ t ht2]
      exact mget_mset_ne _ _ _ _ _ ht1
    · rw [ih _ t ht2]

/-- The allocation computed by the drain loop: provided the configured
drain list has no duplicate targets and the local account still carries
the stale effective rates the loop compares against, every listed drain
target ends with effective rate `f` of its configured rate. -/
theorem drainLoop_dER_mem (accountId : String) (f : ℚ → ℚ)
    (dER0 : List (String × ℚ)) :
    ∀ (sizes : List (String × ℚ)) (st : RelaxState),
      (sizes.map Prod.fst).Nodup →
      (∀ t r, (t, r) ∈ sizes →
        mget st.account.drainEffectiveRates t 0 = mget dER0 t 0) →
      ∀ t r, (t, r) ∈ sizes →
        mget (drainLoop accountId f dER0 sizes st).account.drainEffectiveRates t 0
          = f r := by
  intro sizes
  induction sizes with
  | nil => intro st _ _ t r htr; cases htr
  | cons p rest ih =>
    intro st hnodup hstale t r htr
    rw [List.map_cons] at hnodup
    have hcons := List.nodup_cons.mp hnodup
    have hnotin : p.1 ∉ rest.map Prod.fst := hcons.1
    have hnodup1 : (rest.map Prod.fst).Nodup := hcons.2
    rcases List.mem_cons.mp htr with heq | hmem
    · -- the head drain: set (or already equal) in this step, untouched after
      have hpt : p = (t, r) := heq.symm
      subst hpt
      show mget (drainLoop accountId f dER0 rest _).account.drainEffectiveRates t 0 = f r
      split
      · rw [drainLoop_dER_notin accountId f dER0 rest _ t hnotin]
        exact mget_mset_self _ _ _ _
      · rename_i hne
        rw [drainLoop_dER_notin accountId f dER0 rest _ t hnotin]
        have := hstale t r (List.mem_cons_self _ _)
        rw [this]
        simpa using hne
    · -- a later drain: the head step preserves its stale entry
      have htp : t ≠ p.1 := by
        intro hteq
        exact hnotin (hteq ▸ (List.mem_map.mpr ⟨(t, r), hmem, rfl⟩))
      show mget (drainLoop accountId f dER0 rest _).account.drainEffectiveRates t 0 = f r
      split
      · refine ih _ hnodup1 ?_ t r hmem
        intro t1 r1 hm1
        have ht1p : p.1 ≠ t1 := by
          intro hp
          exact hnotin (hp ▸ (List.mem_map.mpr ⟨(t1, r1), hm1, rfl⟩))
        rw [show ({ st.account with
            drainEffectiveRates := mset st.account.drainEffectiveRates p.1 (f p.2)
            } : AccountState).drainEffectiveRates
            = mset st.account.drainEffectiveRates p.1 (f p.2) from rfl]
        rw [mget_mset_ne _ _ _ _ _ ht1p]
        exact hstale t1 r1 (List.mem_cons_of_mem p hm1)
      · exact ih _ hnodup1 (fun t1 r1 hm1 => hstale t1 r1 (List.mem_cons_of_mem p hm1))
          t r hmem

/-- The rate-update step never clears the changed flag. -/
theorem applyRateUpdates_changed_mono (fr orr : ℚ) (st : RelaxState)
    (h : st.changed = true) :
    (applyRateUpdates fr orr st).changed = true := by
  unfold applyRateUpdates
  dsimp only
  split
  · split <;> rfl
  · split
    · rfl
    · exact h

/-- If the rate-update step ends with the changed flag still clear, it
did nothing. -/
theorem applyRateUpdates_changed_false (fr orr : ℚ) (st : RelaxState)
    (h : (applyRateUpdates fr orr st).changed = false) :
    applyRateUpdates fr orr st = st := by
  unfold applyRateUpdates at h ⊢
  dsimp only at h ⊢
  split at h
  · split at h <;> exact absurd h (by simp)
  · split at h
    · exact absurd h (by simp)
    · rename_i hfr horr
      rw [if_neg hfr, if_neg horr]

/-- Frame property of the rest of the loop body after a spill: once the
changed flag is set, the final commit stores the local account (whose
fill level the drain loop and the rate updates never touch), every other
account keeps the fill level it had right after the spill, and the spill
push survives to the returned dirty list. -/
theorem relaxTail_frame (accountId b : String) (f : ℚ → ℚ) (r1 r2 : ℚ)
    (dER0 sizes : List (String × ℚ)) (st0 : RelaxState)
    (hch : st0.changed = true) (hpush : b ∈ st0.pushes) (hne : b ≠ accountId) :
    (mget (if (applyRateUpdates r1 r2 (drainLoop accountId f dER0 sizes st0)).changed then
        mset (applyRateUpdates r1 r2 (drainLoop accountId f dER0 sizes st0)).accounts accountId
          (applyRateUpdates r1 r2 (drainLoop accountId f dER0 sizes st0)).account
      else (applyRateUpdates r1 r2 (drainLoop accountId f dER0 sizes st0)).accounts)
      accountId emptyAccount).fillLevel = st0.account.fillLevel ∧
    (mget (if (applyRateUpdates r1 r2 (drainLoop accountId f dER0 sizes st0)).changed then
        mset (applyRateUpdates r1 r2 (drainLoop accountId f dER0 sizes st0)).accounts accountId
          (applyRateUpdates r1 r2 (drainLoop accountId f dER0 sizes st0)).account
      else (applyRateUpdates r1 r2 (drainLoop accountId f dER0 sizes st0)).accounts)
      b emptyAccount).fillLevel = (mget st0.accounts b emptyAccount).fillLevel ∧
    b ∈ (applyRateUpdates r1 r2 (drainLoop accountId f dER0 sizes st0)).pushes := by
  have hch1 : (drainLoop accountId f dER0 sizes st0).changed = true :=
    drainLoop_changed_mono accountId f dER0 sizes st0 hch
  have hch3 : (applyRateUpdates r1 r2 (drainLoop accountId f dER0 sizes st0)).changed = true :=
    applyRateUpdates_changed_mono r1 r2 _ hch1
  rw [if_pos hch3]
  refine ⟨?_, ?_, ?_⟩
  · rw [mget_mset_self, applyRateUpdates_fillLevel, drainLoop_account_fillLevel]
  · rw [mget_mset_ne _ _ _ _ _ (Ne.symm hne), applyRateUpdates_accounts,
      drainLoop_accounts_fillLevel]
  · rw [applyRateUpdates_pushes]
    exact drainLoop_pushes_sub accountId f dER0 sizes st0 b hpush

set_option maxHeartbeats 4000000 in
/-- C4.  First conjunct: when relaxation pops a dirty account whose fill
level is at or above capacity and whose overflow target `b` is another
account, the resulting graph has the popped account clamped to its
capacity, `b` credited with exactly the excess, and `b` on the returned
dirty-queue pushes.  Second conjunct: in the concrete scenario of the
spec (account `a` holding 15 with capacity 12 when the overflow target
`b` is set), the emitted snapshot shows `a.fillLevel = 12` and
`b.fillLevel = 3`. -/
theorem C4_once_off_spill :
    (∀ (accounts0 : Accounts) (accountId b : String),
      (mget accounts0 accountId emptyAccount).overflowTargetId = some b →
      (mget accounts0 accountId emptyAccount).fillLevel
        ≥ (mget accounts0 accountId emptyAccount).capacity →
      b ≠ accountId →
      (mget (relaxAccount accounts0 accountId).1 accountId emptyAccount).fillLevel
          = (mget accounts0 accountId emptyAccount).capacity ∧
      (mget (relaxAccount accounts0 accountId).1 b emptyAccount).fillLevel
          = (mget accounts0 b emptyAccount).fillLevel
            + ((mget accounts0 accountId emptyAccount).fillLevel
              - (mget accounts0 accountId emptyAccount).capacity) ∧
      b ∈ (relaxAccount accounts0 accountId).2) ∧
    ((historyAccount (computeFinancialHistory 12 inputSpill) 0 "a").map
        AccountState.fillLevel = some 12 ∧
      (historyAccount (computeFinancialHistory 12 inputSpill) 0 "b").map
        AccountState.fillLevel = some 3) := by
  constructor
  · intro accounts0 accountId b h1 h2 h3
    have hsp := relaxSpill_spill accounts0 accountId b h1 h2
    unfold relaxAccount
    rw [hsp]
    dsimp only
    split
    · obtain ⟨Ha, Hb, Hp⟩ :=
        relaxTail_frame accountId b _ _ _ _ _
          { account := { mget accounts0 accountId emptyAccount with
              fillLevel := (mget accounts0 accountId emptyAccount).capacity }
            accounts := mset accounts0 b
              { mget accounts0 b emptyAccount with
                fillLevel := (mget accounts0 b emptyAccount).fillLevel
                  + ((mget accounts0 accountId emptyAccount).fillLevel
                    - (mget accounts0 accountId emptyAccount).capacity) }
            changed := true
            pushes := [b] }
          rfl (by simp) h3
      exact ⟨Ha, by rw [Hb, mget_mset_self], Hp⟩
    · obtain ⟨Ha, Hb, Hp⟩ :=
        relaxTail_frame accountId b _ _ _ _ _
          { account := { mget accounts0 accountId emptyAccount with
              fillLevel := (mget accounts0 accountId emptyAccount).capacity }
            accounts := mset accounts0 b
              { mget accounts0 b emptyAccount with
                fillLevel := (mget accounts0 b emptyAccount).fillLevel
                  + ((mget accounts0 accountId emptyAccount).fillLevel
                    - (mget accounts0 accountId emptyAccount).capacity) }
            changed := true
            pushes := [b] }
          rfl (by simp) h3
      exact ⟨Ha, by rw [Hb, mget_mset_self], Hp⟩
  · norm_num [historyAccount, computeFinancialHistory, inputSpill, sortBatches, insertSorted,
      runBatches, historyStep, computeIntermediateStates, calculateNextNonlinearities, nlAdd,
      projectLinear, applyModifiers, applyModifier, applyActions, dispatchAction,
      createOrUpdateAccount, injectMoney, updateDrain, updateTransients, relaxAccount, relaxSpill,
      applyRateUpdates, drainLoop, setDrainInflow, mget, mset, sumVals, Time.addQ, Time.deltaQ,
      Time.ble, Time.le_iff_ble, Time.lt_iff_ble, Time.fin_ne_posInf, Time.posInf_ne_fin,
      Time.fin_ne_negInf, Time.negInf_ne_fin, Time.negInf_ne_posInf, Time.posInf_ne_negInf,
      initialSnapshot, emptyAccount,
      strAB, strAC, strAD, strAE, strBA, strBC, strBD, strBE, strCA, strCB, strCD, strCE,
      strDA, strDB, strDC, strDE, strEA, strEB, strEC, strED, someNoneS, noneSomeS]

/-- Witness for C4 on a one-account graph: `a` holds 15 with capacity 12
and overflow target `b`. -/
theorem C4_once_off_spill_witness :
    (mget (relaxAccount spillDemo "a").1 "a" emptyAccount).fillLevel
      = (mget spillDemo "a" emptyAccount).capacity ∧
    (mget (relaxAccount spillDemo "a").1 "b" emptyAccount).fillLevel
      = (mget spillDemo "b" emptyAccount).fillLevel
        + ((mget spillDemo "a" emptyAccount).fillLevel
          - (mget spillDemo "a" emptyAccount).capacity) ∧
    "b" ∈ (relaxAccount spillDemo "a").2 :=
  C4_once_off_spill.1 spillDemo "a" "b"
    (by norm_num [spillDemo, mget]) (by norm_num [spillDemo, mget]) (by decide)

set_option maxHeartbeats 4000000 in
/-- C5.  First conjunct: for a draining account (`fillRate < 0`,
`fillLevel > 0`) the nonlinearity scanner reports the next event at the
snapshot timestamp plus `fillLevel / (-fillRate)`, with the modifier
that forces the fill level to exactly 0.  Second conjunct: in the
concrete scenario of the spec (`a` at fill level 12 with a single drain
of maxRate 3), the snapshot emitted at the event carries timestamp
`0 + 12 / 3 = 4` and shows `a.fillLevel = 0` and `a.fillRate = 0`. -/
theorem C5_empty_event :
    (∀ (ts : ℚ) (aId : String) (acc : AccountState),
      acc.fillRate < 0 → acc.fillLevel > 0 →
      calculateNextNonlinearities { timestamp := .fin ts, accounts := [(aId, acc)] }
        = { timestamp := .fin (ts + acc.fillLevel / (-acc.fillRate))
            accounts := [(aId, .toZero)] }) ∧
    (historyTimestamp (computeFinancialHistory 12 inputDrainEmpty) 1
        = some (.fin (0 + 12 / 3)) ∧
      (historyAccount (computeFinancialHistory 12 inputDrainEmpty) 1 "a").map
        (fun a => (a.fillLevel, a.fillRate)) = some (0, 0)) := by
  constructor
  · intro ts aId acc hneg hpos
    unfold calculateNextNonlinearities
    simp only [List.foldl]
    rw [if_pos ⟨hneg, hpos⟩]
    rw [if_neg (by
      rintro ⟨hgt, h2⟩
      linarith)]
    unfold nlAdd
    rw [if_pos (by
      show Time.ble ((Time.fin ts).addQ (acc.fillLevel / (-acc.fillRate))) Time.posInf = true
      rfl)]
    rw [if_neg (by
      show ¬ (Time.fin ts).addQ (acc.fillLevel / (-acc.fillRate)) = Time.posInf
      exact fun h => Time.noConfusion h)]
    rfl
  · norm_num [historyAccount, historyTimestamp, computeFinancialHistory, inputDrainEmpty,
      sortBatches, insertSorted,
      runBatches, historyStep, computeIntermediateStates, calculateNextNonlinearities, nlAdd,
      projectLinear, applyModifiers, applyModifier, applyActions, dispatchAction,
      createOrUpdateAccount, injectMoney, updateDrain, updateTransients, relaxAccount, relaxSpill,
      applyRateUpdates, drainLoop, setDrainInflow, mget, mset, sumVals, Time.addQ, Time.deltaQ,
      Time.ble, Time.le_iff_ble, Time.lt_iff_ble, Time.fin_ne_posInf, Time.posInf_ne_fin,
      Time.fin_ne_negInf, Time.negInf_ne_fin, Time.negInf_ne_posInf, Time.posInf_ne_negInf,
      initialSnapshot, emptyAccount,
      strAB, strAC, strAD, strAE, strBA, strBC, strBD, strBE, strCA, strCB, strCD, strCE,
      strDA, strDB, strDC, strDE, strEA, strEB, strEC, strED, someNoneS, noneSomeS]

/-- Witness for C5 on a concrete draining account: fill level 12, fill
rate -3, at timestamp 0. -/
theorem C5_empty_event_witness :
    calculateNextNonlinearities
        { timestamp := .fin 0
          accounts := [("a", { emptyAccount with fillLevel := 12, fillRate := -3 })] }
      = { timestamp := .fin (0 + ({ emptyAccount with fillLevel := 12, fillRate := -3 }
            : AccountState).fillLevel
            / (-({ emptyAccount with fillLevel := 12, fillRate := -3 }
              : AccountState).fillRate))
          accounts := [("a", .toZero)] } :=
  C5_empty_event.1 0 "a" { emptyAccount with fillLevel := 12, fillRate := -3 }
    (by norm_num [emptyAccount]) (by norm_num [emptyAccount])

/-- The commit phase of the loop body keeps the drain allocation the
drain loop computed: whether or not any change was recorded, the stored
account ends with effective rate `f` of the configured rate for every
listed drain target. -/
theorem relaxTail_dER (accountId : String) (f : ℚ → ℚ) (r1 r2 : ℚ)
    (dER0 sizes : List (String × ℚ)) (st0 : RelaxState)
    (hnodup : (sizes.map Prod.fst).Nodup)
    (hstale : st0.account.drainEffectiveRates = dER0)
    (hfalse : st0.changed = false → mget st0.accounts accountId emptyAccount = st0.account) :
    ∀ t r, (t, r) ∈ sizes →
      mget (mget (if (applyRateUpdates r1 r2 (drainLoop accountId f dER0 sizes st0)).changed then
          mset (applyRateUpdates r1 r2 (drainLoop accountId f dER0 sizes st0)).accounts accountId
            (applyRateUpdates r1 r2 (drainLoop accountId f dER0 sizes st0)).account
        else (applyRateUpdates r1 r2 (drainLoop accountId f dER0 sizes st0)).accounts)
        accountId emptyAccount).drainEffectiveRates t 0 = f r := by
  intro t r htr
  have hloop : mget (drainLoop accountId f dER0 sizes st0).account.drainEffectiveRates t 0
      = f r :=
    drainLoop_dER_mem accountId f dER0 sizes st0 hnodup
      (fun t1 r1 _ => by rw [hstale]) t r htr
  by_cases hch : (applyRateUpdates r1 r2 (drainLoop accountId f dER0 sizes st0)).changed = true
  · rw [if_pos hch, mget_mset_self, applyRateUpdates_drainEffectiveRates]
    exact hloop
  · have hch1 : (applyRateUpdates r1 r2 (drainLoop accountId f dER0 sizes st0)).changed
        = false := by
      cases hb : (applyRateUpdates r1 r2 (drainLoop accountId f dER0 sizes st0)).changed
      · rfl
      · exact absurd hb hch
    rw [if_neg hch]
    have h3 := applyRateUpdates_changed_false r1 r2 _ hch1
    rw [h3] at hch1
    have h1 := drainLoop_changed_false accountId f dER0 sizes st0 hch1
    rw [h3, h1]
    rw [h1] at hch1
    rw [hfalse hch1]
    rw [h1] at hloop
    exact hloop

set_option maxHeartbeats 4000000 in
/-- The drain allocation computed by one relaxation of a dirty account,
as a single equation: full configured rate when the (post-spill) fill
level is positive or the inflow covers the total demand, and the
proportional inflow share otherwise. -/
theorem relaxAccount_dER (accounts0 : Accounts) (accountId : String)
    (hnodup : (((mget accounts0 accountId emptyAccount).drainSizes).map Prod.fst).Nodup) :
    ∀ t r, (t, r) ∈ (mget accounts0 accountId emptyAccount).drainSizes →
      mget (mget (relaxAccount accounts0 accountId).1 accountId
          emptyAccount).drainEffectiveRates t 0
        = if postSpillLevel (mget accounts0 accountId emptyAccount) > 0 ∨
              inflowRate (mget accounts0 accountId emptyAccount)
                ≥ totalDrain (mget accounts0 accountId emptyAccount) then r
          else inflowRate (mget accounts0 accountId emptyAccount) * r
            / totalDrain (mget accounts0 accountId emptyAccount) := by
  intro t r htr
  obtain ⟨hds, hdi, hoi, hder, hcap, htgt⟩ := relaxSpill_account_rest accounts0 accountId
  have hfl := relaxSpill_fillLevel accounts0 accountId
  have hfalse : (relaxSpill accounts0 accountId).changed = false →
      mget (relaxSpill accounts0 accountId).accounts accountId emptyAccount
        = (relaxSpill accounts0 accountId).account := by
    intro hc
    rw [relaxSpill_changed_false accounts0 accountId hc]
  simp only [inflowRate, totalDrain]
  unfold relaxAccount
  dsimp only
  rw [hfl, hds, hdi, hoi, hder]
  by_cases hcond : postSpillLevel (mget accounts0 accountId emptyAccount) > 0 ∨
      sumVals (mget accounts0 accountId emptyAccount).drainInflows
        + sumVals (mget accounts0 accountId emptyAccount).overflowInflows
        ≥ sumVals (mget accounts0 accountId emptyAccount).drainSizes
  · simp only [if_pos hcond]
    exact relaxTail_dER accountId (fun potentialRate => potentialRate) _ _ _ _ _
      hnodup hder hfalse t r htr
  · simp only [if_neg hcond]
    exact relaxTail_dER accountId
      (fun potentialRate =>
        (sumVals (mget accounts0 accountId emptyAccount).drainInflows
          + sumVals (mget accounts0 accountId emptyAccount).overflowInflows)
          * potentialRate
          / sumVals (mget accounts0 accountId emptyAccount).drainSizes) _ _ _ _ _
      hnodup hder hfalse t r htr

/-- C3.  The two-branch drain allocation policy after relaxing a dirty
account (with distinct drain targets, as the map-backed `drainSizes`
guarantees): if the fill level seen by the allocation step (i.e. after
the once-off spill clamp) is positive, or the inflow covers the total
configured demand, every listed drain runs at its configured rate;
otherwise every listed drain runs at the proportional share
`inflow * size / totalDemand`. -/
theorem C3_drain_allocation (accounts0 : Accounts) (accountId : String)
    (hnodup : (((mget accounts0 accountId emptyAccount).drainSizes).map Prod.fst).Nodup) :
    ((postSpillLevel (mget accounts0 accountId emptyAccount) > 0 ∨
        inflowRate (mget accounts0 accountId emptyAccount)
          ≥ totalDrain (mget accounts0 accountId emptyAccount)) →
      ∀ t r, (t, r) ∈ (mget accounts0 accountId emptyAccount).drainSizes →
        mget (mget (relaxAccount accounts0 accountId).1 accountId
          emptyAccount).drainEffectiveRates t 0 = r) ∧
    (¬ (postSpillLevel (mget accounts0 accountId emptyAccount) > 0 ∨
        inflowRate (mget accounts0 accountId emptyAccount)
          ≥ totalDrain (mget accounts0 accountId emptyAccount)) →
      ∀ t r, (t, r) ∈ (mget accounts0 accountId emptyAccount).drainSizes →
        mget (mget (relaxAccount accounts0 accountId).1 accountId
          emptyAccount).drainEffectiveRates t 0
          = inflowRate (mget accounts0 accountId emptyAccount) * r
            / totalDrain (mget accounts0 accountId emptyAccount)) := by
  constructor
  · intro hcond t r htr
    have h := relaxAccount_dER accounts0 accountId hnodup t r htr
    rwa [if_pos hcond] at h
  · intro hcond t r htr
    have h := relaxAccount_dER accounts0 accountId hnodup t r htr
    rwa [if_neg hcond] at h

/-- Witness for C3 on the inflow-limited demo graph: the drain toward
`t1` (size 3) ends at the proportional share of the inflow 2 over the
total demand 4. -/
theorem C3_drain_allocation_witness :
    mget (mget (relaxAccount drainDemo "a").1 "a" emptyAccount).drainEffectiveRates "t1" 0
      = inflowRate (mget drainDemo "a" emptyAccount) * 3
        / totalDrain (mget drainDemo "a" emptyAccount) :=
  (C3_drain_allocation drainDemo "a" (by decide)).2
    (by norm_num [drainDemo, mget, emptyAccount, postSpillLevel, inflowRate, totalDrain, sumVals])
    "t1" 3 (by norm_num [drainDemo, mget, emptyAccount])

theorem Time.fin_le_fin (a b : ℚ) : Time.fin a ≤ Time.fin b ↔ a ≤ b := by
  show Time.ble (Time.fin a) (Time.fin b) = true ↔ a ≤ b
  simp [Time.ble]

theorem Time.fin_lt_fin (a b : ℚ) : Time.fin a < Time.fin b ↔ a < b := by
  show Time.ble (Time.fin b) (Time.fin a) = false ↔ a < b
  simp [Time.ble]

theorem Time.negInf_le (t : Time) : Time.negInf ≤ t := by
  show Time.ble Time.negInf t = true
  cases t <;> rfl

theorem Time.le_of_lt : ∀ (a b : Time), a < b → a ≤ b := by
  intro a b
  cases a <;> cases b <;>
    simp [Time.lt_iff_ble, Time.le_iff_ble, Time.ble] <;>
    exact fun h => h.le

theorem lastD_append {α : Type} :
    ∀ (l1 l2 : List α) (a : α), lastD a (l1 ++ l2) = lastD (lastD a l1) l2 := by
  intro l1
  induction l1 with
  | nil => intro l2 a; rfl
  | cons b t ih => intro l2 a; exact ih l2 b

theorem lastD_mem {α : Type} :
    ∀ (l : List α) (a : α), lastD a l = a ∨ lastD a l ∈ l := by
  intro l
  induction l with
  | nil => intro a; exact Or.inl rfl
  | cons b t ih =>
    intro a
    rcases ih b with h | h
    · exact Or.inr (by rw [show lastD a (b :: t) = lastD b t from rfl, h]; exact
        List.mem_cons_self _ _)
    · exact Or.inr (List.mem_cons_of_mem b h)

theorem chain_append_lastD {α : Type} {R : α → α → Prop} :
    ∀ (l1 : List α) (a : α) (l2 : List α),
      List.Chain R a l1 → List.Chain R (lastD a l1) l2 → List.Chain R a (l1 ++ l2) := by
  intro l1
  induction l1 with
  | nil => intro a l2 _ h2; exact h2
  | cons b t ih =>
    intro a l2 h1 h2
    rcases List.chain_cons.mp h1 with ⟨hab, hbt⟩
    exact List.chain_cons.mpr ⟨hab, ih b l2 hbt h2⟩

theorem chain'_of_chain {α : Type} {R : α → α → Prop} :
    ∀ (l : List α) (a : α), List.Chain R a l → List.Chain' R l := by
  intro l a h
  cases l with
  | nil => trivial
  | cons b t => exact (List.chain_cons.mp h).2

theorem nlAdd_inv (state : HistorySnapshot) (best : NonLinearities) (t : Time)
    (x : String × Modifier)
    (hb : ∀ q1, best.timestamp = .fin q1 → state.timestamp < .fin q1)
    (ht : ∀ q1, t = .fin q1 → state.timestamp < .fin q1) :
    ∀ q1, (nlAdd best t x).timestamp = .fin q1 → state.timestamp < .fin q1 := by
  unfold nlAdd
  split
  · split
    · exact hb
    · exact ht
  · exact hb

/-- Every candidate the scanner considers lies strictly after the
snapshot timestamp, because each candidate adds a strictly positive
delta; hence a finite scan result is strictly later than the
snapshot. -/
theorem addQ_inv (state : HistorySnapshot) (delta : ℚ) (hpos : 0 < delta) :
    ∀ q1, state.timestamp.addQ delta = .fin q1 → state.timestamp < .fin q1 := by
  intro q1 h
  cases hts : state.timestamp with
  | negInf => rw [hts] at h; exact absurd h (by simp [Time.addQ])
  | posInf => rw [hts] at h; exact absurd h (by simp [Time.addQ])
  | fin q =>
    rw [hts] at h
    have hq : q1 = q + delta := by
      have := h
      simp only [Time.addQ, Time.fin.injEq] at this
      exact this.symm
    rw [hq, Time.fin_lt_fin]
    linarith

theorem scan_fin_gt (state : HistorySnapshot) :
    ∀ q1, (calculateNextNonlinearities state).timestamp = .fin q1 →
      state.timestamp < .fin q1 := by
  unfold calculateNextNonlinearities
  have main : ∀ (l : List (String × AccountState)) (best : NonLinearities),
      (∀ q1, best.timestamp = .fin q1 → state.timestamp < .fin q1) →
      ∀ q1, (l.foldl (fun best p =>
          let account := p.2
          let best1 :=
            if account.fillRate > 0 ∧ account.fillLevel < account.capacity then
              nlAdd best
                (state.timestamp.addQ ((account.capacity - account.fillLevel) / account.fillRate))
                (p.1, .toCapacity)
            else best
          if account.fillRate < 0 ∧ account.fillLevel > 0 then
            nlAdd best1 (state.timestamp.addQ (account.fillLevel / (-account.fillRate)))
              (p.1, .toZero)
          else best1) best).timestamp = .fin q1 →
        state.timestamp < .fin q1 := by
    intro l
    induction l with
    | nil => intro best hb; exact hb
    | cons p rest ih =>
      intro best hb
      rw [List.foldl_cons]
      refine ih _ ?_
      dsimp only
      have hb1 : ∀ q1, (if p.2.fillRate > 0 ∧ p.2.fillLevel < p.2.capacity then
          nlAdd best
            (state.timestamp.addQ ((p.2.capacity - p.2.fillLevel) / p.2.fillRate))
            (p.1, .toCapacity)
        else best).timestamp = .fin q1 → state.timestamp < .fin q1 := by
        split
        · rename_i hc
          exact nlAdd_inv state best _ _ hb
            (addQ_inv state _ (div_pos (by linarith [hc.2]) hc.1))
        · exact hb
      split
      · rename_i hc
        exact nlAdd_inv state _ _ _ hb1
          (addQ_inv state _ (div_pos hc.2 (by linarith [hc.1])))
      · exact hb1
  exact main state.accounts { timestamp := .posInf, accounts := [] }
    (fun q1 h => absurd h (by simp))

/-- The event loop emits a nondecreasing run of snapshots, all strictly
before the target, and returns the last state of the run. -/
theorem cis_chain :
    ∀ (fuel : ℕ) (state : HistorySnapshot) (target : Time)
      (res : List HistorySnapshot × HistorySnapshot),
      computeIntermediateStates fuel state target = some res →
      List.Chain (fun s1 s2 => s1.timestamp ≤ s2.timestamp) state res.1 ∧
      res.2 = lastD state res.1 ∧
      ∀ x ∈ res.1, x.timestamp < target := by
  intro fuel
  induction fuel with
  | zero =>
    intro state target res h
    simp only [computeIntermediateStates] at h
    split at h
    · exact absurd h (by simp)
    · rw [Option.some.injEq] at h
      subst h
      exact ⟨List.Chain.nil, rfl, by intro x hx; cases hx⟩
  | succ n ih =>
    intro state target res h
    simp only [computeIntermediateStates] at h
    split at h
    · rename_i hlt
      split at h
      · rename_i q heq
        split at h
        · exact absurd h (by simp)
        · rename_i accounts2 hut
          split at h
          · exact absurd h (by simp)
          · rename_i states final hrec
            rw [Option.some.injEq] at h
            subst h
            obtain ⟨hchain, hlast, hbefore⟩ := ih _ target (states, final) hrec
            have hgt : state.timestamp < Time.fin q := scan_fin_gt state q heq
            rw [heq] at hlt
            refine ⟨List.chain_cons.mpr ⟨?_, hchain⟩, ?_, ?_⟩
            · exact Time.le_of_lt _ _ hgt
            · exact hlast
            · intro x hx
              rcases List.mem_cons.mp hx with rfl | hmem
              · exact hlt
              · exact hbefore x hmem
      · exact absurd h (by simp)
    · rw [Option.some.injEq] at h
      subst h
      exact ⟨List.Chain.nil, rfl, by intro x hx; cases hx⟩

/-- One batch step emits a nondecreasing run ending in the batch
snapshot, whose timestamp is the batch timestamp. -/
theorem historyStep_chain (fuel : ℕ) (state : HistorySnapshot) (g : UserActionGroup)
    (res : List HistorySnapshot × HistorySnapshot)
    (hle : state.timestamp ≤ .fin g.timestamp)
    (h : historyStep fuel state g = .ok res) :
    List.Chain (fun s1 s2 => s1.timestamp ≤ s2.timestamp) state res.1 ∧
    res.2 = lastD state res.1 ∧
    res.2.timestamp = .fin g.timestamp := by
  unfold historyStep at h
  split at h
  · exact absurd h (by simp)
  · rename_i inter state1 hcis
    dsimp only at h
    split at h
    · exact absurd h (by simp)
    · rename_i accounts1 dirty happ
      split at h
      · exact absurd h (by simp)
      · rename_i accounts2 hut
        rw [Except.ok.injEq] at h
        subst h
        obtain ⟨hchain, hlast, hbefore⟩ :=
          cis_chain fuel state (.fin g.timestamp) (inter, state1) hcis
        refine ⟨?_, ?_, rfl⟩
        · refine chain_append_lastD inter state _ hchain ?_
          refine List.chain_cons.mpr ⟨?_, List.Chain.nil⟩
          show (lastD state inter).timestamp ≤ Time.fin g.timestamp
          rcases lastD_mem inter state with he | hm
          · rw [he]
            exact hle
          · exact Time.le_of_lt _ _ (hbefore _ hm)
        · rw [lastD_append]
          rfl

/-- The batch loop over timestamp-sorted batches emits a nondecreasing
run and returns the last state of the run. -/
theorem runBatches_chain :
    ∀ (gs : List UserActionGroup) (fuel : ℕ) (state : HistorySnapshot)
      (res : List HistorySnapshot × HistorySnapshot),
      List.Chain' (fun g1 g2 => g1.timestamp ≤ g2.timestamp) gs →
      (∀ g1, gs.head? = some g1 → state.timestamp ≤ .fin g1.timestamp) →
      runBatches fuel state gs = .ok res →
      List.Chain (fun s1 s2 => s1.timestamp ≤ s2.timestamp) state res.1 ∧
      res.2 = lastD state res.1 := by
  intro gs
  induction gs with
  | nil =>
    intro fuel state res _ _ h
    simp only [runBatches, Except.ok.injEq] at h
    subst h
    exact ⟨List.Chain.nil, rfl⟩
  | cons g rest ih =>
    intro fuel state res hsort hhead h
    simp only [runBatches] at h
    split at h
    · exact absurd h (by simp)
    · rename_i h1 state1 hstep
      split at h
      · exact absurd h (by simp)
      · rename_i h2 state2 hrest
        rw [Except.ok.injEq] at h
        subst h
        obtain ⟨hsort1, hsort2⟩ := List.chain'_cons'.mp hsort
        obtain ⟨hc1, hl1, ht1⟩ := historyStep_chain fuel state g (h1, state1)
          (hhead g rfl) hstep
        have hhead2 : ∀ g1, rest.head? = some g1 →
            state1.timestamp ≤ Time.fin g1.timestamp := by
          intro g1 hg1
          have ht1q : state1.timestamp = Time.fin g.timestamp := ht1
          rw [ht1q, Time.fin_le_fin]
          exact hsort1 g1 (Option.mem_def.mpr hg1)
        obtain ⟨hc2, hl2⟩ := ih fuel state1 (h2, state2) hsort2 hhead2 hrest
        have he1 : state1 = lastD state h1 := hl1
        refine ⟨?_, ?_⟩
        · refine chain_append_lastD h1 state h2 hc1 ?_
          rw [← he1]
          exact hc2
        · rw [lastD_append, ← he1]
          exact hl2

/-- The stable insert preserves sortedness by timestamp. -/
theorem insertSorted_chain :
    ∀ (l : List UserActionGroup) (g : UserActionGroup),
      List.Chain' (fun g1 g2 => g1.timestamp ≤ g2.timestamp) l →
      List.Chain' (fun g1 g2 => g1.timestamp ≤ g2.timestamp) (insertSorted g l) := by
  intro l
  induction l with
  | nil => intro g _; simp [insertSorted]
  | cons g1 rest ih =>
    intro g hl
    obtain ⟨hhead, htail⟩ := List.chain'_cons'.mp hl
    simp only [insertSorted]
    split
    · rename_i hle
      refine List.chain'_cons'.mpr ⟨?_, hl⟩
      intro b hb
      simp only [List.head?_cons, Option.mem_def, Option.some.injEq] at hb
      subst hb
      exact hle
    · rename_i hgt
      refine List.chain'_cons'.mpr ⟨?_, ih g htail⟩
      intro b hb
      cases rest with
      | nil =>
        simp only [insertSorted, List.head?_cons, Option.mem_def,
          Option.some.injEq] at hb
        subst hb
        exact (not_le.mp hgt).le
      | cons g2 rest2 =>
        revert hb
        simp only [insertSorted]
        split
        · intro hb
          simp only [List.head?_cons, Option.mem_def, Option.some.injEq] at hb
          subst hb
          exact (not_le.mp hgt).le
        · intro hb
          simp only [List.head?_cons, Option.mem_def, Option.some.injEq] at hb
          subst hb
          exact hhead g2 rfl

/-- The batch sort produces a timestamp-sorted list. -/
theorem sortBatches_chain :
    ∀ (l : List UserActionGroup),
      List.Chain' (fun g1 g2 => g1.timestamp ≤ g2.timestamp) (sortBatches l) := by
  intro l
  induction l with
  | nil => simp [sortBatches]
  | cons g rest ih => exact insertSorted_chain (sortBatches rest) g ih

/-- C6: the sequence of snapshot timestamps emitted by
`computeFinancialHistory` is nondecreasing. (The claimed strictness
fails: two user batches sharing a timestamp already produce a repeated
timestamp with no nonlinearity event involved, so only the weaker
nondecreasing ordering holds in general.) -/
theorem C6_timestamps_monotone (fuel : ℕ) (actions : List UserActionGroup)
    (hist : List HistorySnapshot)
    (h : computeFinancialHistory fuel actions = .ok hist) :
    List.Chain' (fun s1 s2 => s1.timestamp ≤ s2.timestamp) hist := by
  unfold computeFinancialHistory at h
  split at h
  · exact absurd h (by simp)
  · rename_i h1 final hrun
    split at h
    · exact absurd h (by simp)
    · rename_i inter final2 hcis
      rw [Except.ok.injEq] at h
      subst h
      obtain ⟨hc1, hl1⟩ := runBatches_chain (sortBatches actions) fuel initialSnapshot
        (h1, final) (sortBatches_chain actions) (fun g1 _ => Time.negInf_le _) hrun
      obtain ⟨hc2, _, _⟩ := cis_chain fuel final Time.posInf (inter, final2) hcis
      refine chain'_of_chain _ initialSnapshot ?_
      refine chain_append_lastD h1 initialSnapshot inter hc1 ?_
      have he1 : final = lastD initialSnapshot h1 := hl1
      rw [← he1]
      exact hc2

/-- Witness for C6: on two empty batches sharing timestamp 0 the
pipeline succeeds and the emitted timestamps are indeed nondecreasing. -/
theorem C6_timestamps_monotone_witness :
    computeFinancialHistory 2 inputEqualBatches =
      .ok [ { timestamp := .fin 0, accounts := [] },
            { timestamp := .fin 0, accounts := [] } ] ∧
    List.Chain' (fun s1 s2 => s1.timestamp ≤ s2.timestamp)
      [ ({ timestamp := .fin 0, accounts := [] } : HistorySnapshot),
        { timestamp := .fin 0, accounts := [] } ] :=
  ⟨rfl, C6_timestamps_monotone 2 inputEqualBatches _ rfl⟩

/-- Counterexample to the strictness part of C6: two user batches at
timestamp 0 on the empty account graph yield two snapshots both stamped
0, while the nonlinearity scanner returns `posInf` on the empty graph,
so no batch timestamp coincides with a nonlinearity event here; the
emitted timestamps are therefore not strictly increasing. -/
theorem C6_strictness_counterexample :
    computeFinancialHistory 2 inputEqualBatches =
      .ok [ { timestamp := .fin 0, accounts := [] },
            { timestamp := .fin 0, accounts := [] } ] ∧
    ¬ List.Chain' (fun s1 s2 => s1.timestamp < s2.timestamp)
      [ ({ timestamp := .fin 0, accounts := [] } : HistorySnapshot),
        { timestamp := .fin 0, accounts := [] } ] ∧
    (calculateNextNonlinearities
      { timestamp := .fin 0, accounts := [] }).timestamp = Time.posInf := by
  refine ⟨rfl, ?_, rfl⟩
  intro hchain
  have h1 := (List.chain'_cons.mp hchain).1
  have h2 : Time.fin 0 < Time.fin 0 := h1
  rw [Time.fin_lt_fin] at h2
  exact absurd h2 (lt_irrefl 0)

end IceTray
